import Mathlib

/-!
# XFS block-format directory (Haiku `xfs` add-on): a shallow embedding

The development embeds `BlockDirectory.cpp`, `Directory.cpp` and `Utility.h`.
Machine integers are natural numbers (or integers) with explicit reduction
modulo the word size where the C code can wrap.  Memory is a list of bytes;
a pointer into a buffer is the list of bytes from that address onwards, or a
byte offset into the buffer.
-/

namespace XFS

/-! ## Bytes, words and byte order -/

/-- The byte stored `i` bytes after the pointer `p`. -/
def byteAt (p : List Nat) (i : Nat) : Nat := p.getD i 0

/-- Load of a `uint64` through a `uint64*`: the eight bytes at `p` combined in
the byte order of the host (`le = true` for a little-endian host). -/
def loadU64 (le : Bool) (p : List Nat) : Nat :=
  if le then
    byteAt p 0 + byteAt p 1 * 2 ^ 8 + byteAt p 2 * 2 ^ 16 + byteAt p 3 * 2 ^ 24
      + byteAt p 4 * 2 ^ 32 + byteAt p 5 * 2 ^ 40 + byteAt p 6 * 2 ^ 48 + byteAt p 7 * 2 ^ 56
  else
    byteAt p 0 * 2 ^ 56 + byteAt p 1 * 2 ^ 48 + byteAt p 2 * 2 ^ 40 + byteAt p 3 * 2 ^ 32
      + byteAt p 4 * 2 ^ 24 + byteAt p 5 * 2 ^ 16 + byteAt p 6 * 2 ^ 8 + byteAt p 7

/-- Byte swap of a 64-bit word. -/
def bswap64 (x : Nat) : Nat :=
  x % 256 * 2 ^ 56 + x / 2 ^ 8 % 256 * 2 ^ 48 + x / 2 ^ 16 % 256 * 2 ^ 40
    + x / 2 ^ 24 % 256 * 2 ^ 32 + x / 2 ^ 32 % 256 * 2 ^ 24 + x / 2 ^ 40 % 256 * 2 ^ 16
    + x / 2 ^ 48 % 256 * 2 ^ 8 + x / 2 ^ 56 % 256

/-- The conversion `B_BENDIAN_TO_HOST_INT64`: a byte swap on a little-endian
host, the identity on a big-endian host. -/
def B_BENDIAN_TO_HOST_INT64 (le : Bool) (x : Nat) : Nat :=
  if le then bswap64 x else x

/-- Modelled from the spec: the macro `MASK` is declared in a header that is
not among the sources; `MASK(n)` is `((1UL << n) - 1)`, the word whose `n` low
bits are set, which is what the masking of the extent record needs. -/
def MASK (n : Nat) : Nat := (1 <<< n) - 1

/-! ## Extent map decoder -/

/-- The decoded extent record (`ExtentMapEntry`). -/
structure ExtentMapEntry where
  br_state : Nat
  br_startoff : Nat
  br_startblock : Nat
  br_blockcount : Nat
deriving DecidableEq, Repr

/-- The function `BlockDirectory::FillMapEntry`: `pointerToMap` is the memory at
the data fork, `le` the byte order of the host.  The result is the value
stored through `fMap`. -/
def FillMapEntry (le : Bool) (pointerToMap : List Nat) : ExtentMapEntry :=
  let firstHalf := loadU64 le pointerToMap
  let secondHalf := loadU64 le (pointerToMap.drop 8)
  let firstHalf := B_BENDIAN_TO_HOST_INT64 le firstHalf
  let secondHalf := B_BENDIAN_TO_HOST_INT64 le secondHalf
  { br_state := (firstHalf >>> 63) % 2 ^ 8
    br_startoff := (firstHalf &&& MASK 63) >>> 9
    br_startblock := (((firstHalf &&& MASK 9) <<< 43) % 2 ^ 64) ||| (secondHalf >>> 21)
    br_blockcount := secondHalf &&& MASK 21 }

/-- The eight bytes of a 64-bit word, most significant first. -/
def be64Bytes (w : Nat) : List Nat :=
  [w / 2 ^ 56 % 256, w / 2 ^ 48 % 256, w / 2 ^ 40 % 256, w / 2 ^ 32 % 256,
   w / 2 ^ 24 % 256, w / 2 ^ 16 % 256, w / 2 ^ 8 % 256, w % 256]

/-- The packing the specification describes for an extent record: two 64-bit
big-endian words holding `state | startoff | startblock | blockcount`, the
start block split into 9 bits at the bottom of the first word and 43 bits at
the top of the second.  This definition follows the words of the
specification, not the source (the source only decodes). -/
def encodeExtent (state startoff startblock blockcount : Nat) : List Nat :=
  be64Bytes ((state * 2 ^ 63 + startoff * 2 ^ 9 + startblock / 2 ^ 43) % 2 ^ 64)
    ++ be64Bytes ((startblock % 2 ^ 43 * 2 ^ 21 + blockcount) % 2 ^ 64)

/-! ## The inode and the environment of the engine -/

/-- The parts of the `Inode` object the directory code consults. -/
structure Inode where
  Format : Nat
  Version : Nat
  BlockCount : Nat
  Size : Nat
  DirBlockSize : Nat
  HasFileTypeField : Bool
  Buffer : List Nat
  CoreInodeSize : Nat
  FileSystemBlockToAddr : Nat → Nat

/-- What the sources leave to the build, to headers that are not among them
and to the collaborators of the engine: the byte order of the host, whether
`ASSERT` is compiled in, the outcome of each `new(std::nothrow)`, the device
read `read_pos` (position and length to return value and the contents of the
buffer afterwards), the header verification `VerifyHeader`, the sizes of the
two on-disk headers and the name hash `hashfunction`. -/
structure Env where
  littleEndian : Bool
  assertEnabled : Bool
  allocMap : Bool
  allocBuffer : Bool
  allocHeader : Bool
  read_pos : Nat → Nat → Int × List Nat
  VerifyHeader : List Nat → ExtentMapEntry → Bool
  sizeofDataHeaderV4 : Nat
  sizeofDataHeaderV5 : Nat
  hashfunction : List Nat → Nat → Nat

/-- The status codes the engine returns. -/
inductive status_t where
  | B_OK
  | B_NO_MEMORY
  | B_IO_ERROR
  | B_BAD_VALUE
  | B_BUFFER_OVERFLOW
  | B_ENTRY_NOT_FOUND
deriving DecidableEq, Repr

/-- Modelled from the spec: the numeric values of the status codes are declared
in system headers that are not among the sources; the specification only says
that they are error values distinct from success.  Success is 0 and the errors
are negative 32-bit integers counted from `INT_MIN` (general errors), from
`INT_MIN + 0x6000` (storage errors) and from `INT_MIN + 0x7000` (POSIX
errors). -/
def status_t.toInt : status_t → Int
  | .B_OK => 0
  | .B_NO_MEMORY => -2147483648
  | .B_IO_ERROR => -2147483648 + 1
  | .B_BAD_VALUE => -2147483648 + 5
  | .B_BUFFER_OVERFLOW => -2147483648 + 0x7000 + 41
  | .B_ENTRY_NOT_FOUND => -2147483648 + 0x6000 + 3

/-- Conversion of a signed 32-bit value to `uint64` (sign extension, then
reduction modulo `2^64`). -/
def toUInt64 (x : Int) : Nat := (x % 2 ^ 64).toNat

/-- The macro `DIR_DFORK_PTR`: the memory of the inode buffer from the end of
the inode core onwards. -/
def DIR_DFORK_PTR (buffer : List Nat) (coreSize : Nat) : List Nat := buffer.drop coreSize

/-- The function `BlockDirectory::IsBlockType`.  The first word of the data
fork is used as loaded, without a conversion from big-endian. -/
def IsBlockType (le : Bool) (inode : Inode) : Bool :=
  let status := true
  let status := if inode.BlockCount ≠ 1 then false else status
  let status := if inode.Size ≠ inode.DirBlockSize then false else status
  let pointerToMap := DIR_DFORK_PTR inode.Buffer inode.CoreInodeSize
  let startoff := (loadU64 le pointerToMap &&& MASK 63) >>> 9
  let status := if startoff ≠ 0 then false else status
  status

/-- The function `BlockDirectory::EntrySize`.  The argument is the `uint8`
name length at every call, so the `int` arithmetic is on non-negative values
and `& -8` is the conjunction with the 32-bit two's-complement pattern of
`-8`. -/
def EntrySize (inode : Inode) (len : Nat) : Nat :=
  let entrySize := 8 + 1 + len + 2
  let entrySize := if inode.HasFileTypeField then entrySize + 1 else entrySize
  ((entrySize + 7) % 2 ^ 32) &&& (2 ^ 32 - 8)

/-- The overhead of a data entry besides its name: inode number, length byte
and tag, and the file-type byte when the filesystem has one. -/
def fixedOverhead (inode : Inode) : Nat :=
  8 + 1 + 2 + (if inode.HasFileTypeField then 1 else 0)

/-! ## Versioned header, version 4 -/

/-- Big-endian value of the four bytes at `p`. -/
def be32 (p : List Nat) : Nat :=
  byteAt p 0 * 2 ^ 24 + byteAt p 1 * 2 ^ 16 + byteAt p 2 * 2 ^ 8 + byteAt p 3

/-- The class `DataHeaderV4`: of the copied on-disk data only the magic number
is converted and exposed. -/
structure DataHeaderV4 where
  magic : Nat
deriving DecidableEq, Repr

/-- The constructor `DataHeaderV4::DataHeaderV4(buffer)`: the on-disk header is
copied out of the buffer and the magic number converted to host order. -/
def DataHeaderV4.create (buffer : List Nat) : DataHeaderV4 :=
  { magic := be32 buffer }

/-- The accessor `DataHeaderV4::Magic`. -/
def DataHeaderV4.Magic (h : DataHeaderV4) : Nat := h.magic

/-- The accessor `DataHeaderV4::Blockno`: `B_BAD_VALUE` returned as `uint64`. -/
def DataHeaderV4.Blockno (_h : DataHeaderV4) : Nat := toUInt64 status_t.B_BAD_VALUE.toInt

/-- The accessor `DataHeaderV4::Lsn`. -/
def DataHeaderV4.Lsn (_h : DataHeaderV4) : Nat := toUInt64 status_t.B_BAD_VALUE.toInt

/-- The accessor `DataHeaderV4::Owner`. -/
def DataHeaderV4.Owner (_h : DataHeaderV4) : Nat := toUInt64 status_t.B_BAD_VALUE.toInt

/-- The object `static uuid_t nullUuid`: sixteen bytes of static storage,
zero-initialised. -/
def nullUuid : List Nat := List.replicate 16 0

/-- The accessor `DataHeaderV4::Uuid`. -/
def DataHeaderV4.Uuid (_h : DataHeaderV4) : List Nat := nullUuid

/-! ## Loading the block: `FillBlockBuffer` and `Init` -/

/-- The fields of a `BlockDirectory` instance.  The field `fMap` is `none` as
long as the object it points to holds no decoded map (null pointer, or a
fresh object that has not been filled); `fBlockBuffer` is `none` when it
holds no buffer, otherwise the contents of the buffer it points to. -/
structure BlockDirectory where
  fInode : Inode
  fMap : Option ExtentMapEntry
  fOffset : Nat
  fBlockBuffer : Option (List Nat)

/-- How a call of `Init` ends: it returns a status, or it stops in a failed
`ASSERT`. -/
inductive InitOutcome where
  | returned (status : status_t)
  | assertFailed
deriving DecidableEq, Repr

/-- The function `BlockDirectory::FillBlockBuffer`, called with the decoded map
`map` (the object `fMap` points to). -/
def FillBlockBuffer (env : Env) (dir : BlockDirectory) (map : ExtentMapEntry) :
    status_t × BlockDirectory :=
  if map.br_state ≠ 0 then
    (status_t.B_BAD_VALUE, dir)
  else
    let len := dir.fInode.DirBlockSize
    if env.allocBuffer = false then
      (status_t.B_NO_MEMORY, { dir with fBlockBuffer := none })
    else
      let readPos := dir.fInode.FileSystemBlockToAddr map.br_startblock
      let result := env.read_pos readPos len
      let dir := { dir with fBlockBuffer := some result.2 }
      if result.1 ≠ (len : Int) then
        (status_t.B_IO_ERROR, dir)
      else
        (status_t.B_OK, dir)

/-- The function `BlockDirectory::Init`. -/
def Init (env : Env) (dir : BlockDirectory) : InitOutcome × BlockDirectory :=
  if env.allocMap = false then
    (InitOutcome.returned status_t.B_NO_MEMORY, { dir with fMap := none })
  else if env.assertEnabled ∧ ¬ (IsBlockType env.littleEndian dir.fInode = true) then
    (InitOutcome.assertFailed, { dir with fMap := none })
  else
    let pointerToMap := DIR_DFORK_PTR dir.fInode.Buffer dir.fInode.CoreInodeSize
    let map := FillMapEntry env.littleEndian pointerToMap
    let dir := { dir with fMap := some map }
    if env.assertEnabled ∧ ¬ (map.br_blockcount = 1) then
      (InitOutcome.assertFailed, dir)
    else
      let filled := FillBlockBuffer env dir map
      let status := filled.1
      let dir := filled.2
      if status ≠ status_t.B_OK then
        (InitOutcome.returned status, dir)
      else if env.allocHeader = false then
        (InitOutcome.returned status_t.B_NO_MEMORY, dir)
      else
        let status :=
          if env.VerifyHeader (dir.fBlockBuffer.getD []) map = false then status_t.B_BAD_VALUE
          else status
        (InitOutcome.returned status, dir)

/-! ## Reading the directory block

The on-disk structures are declared in a header that is not among the sources.
The code below reads their fields at the offsets of the layout the
specification gives: `BlockTail` is `count` (4 bytes) and `stale` (4 bytes) at
the end of the block; a `LeafEntry` is `hashval` (4 bytes) and `address`
(4 bytes); a `DataEntry` is `inumber` (8 bytes), `namelen` (1 byte) and the
name from byte 9 on; an `UnusedEntry` is `freetag` (2 bytes) and `length`
(2 bytes).  Every field is stored big-endian and is converted by the code
with `B_BENDIAN_TO_HOST_INT16/32/64` where it is read, so that the value used
is the big-endian value of the bytes on a host of either byte order. -/

/-- How a run of engine code over the block buffer ends: with a value, with an
access outside the buffer, or without an end within the given number of loop
iterations. -/
inductive Run (α : Type) where
  | done (value : α)
  | outOfBounds
  | outOfFuel
deriving DecidableEq, Repr

/-- The byte at offset `off` of the buffer, if the offset lies inside it. -/
def readU8 (buf : List Nat) (off : Nat) : Option Nat := buf[off]?

/-- The 16-bit field at `off`, converted from big-endian (`B_BENDIAN_TO_HOST_INT16`
of the loaded field is the big-endian value of its bytes on either host). -/
def readBE16 (buf : List Nat) (off : Nat) : Option Nat :=
  match readU8 buf off, readU8 buf (off + 1) with
  | some b0, some b1 => some (b0 * 2 ^ 8 + b1)
  | _, _ => none

/-- The 32-bit field at `off`, converted from big-endian. -/
def readBE32 (buf : List Nat) (off : Nat) : Option Nat :=
  match readBE16 buf off, readBE16 buf (off + 2) with
  | some h, some l => some (h * 2 ^ 16 + l)
  | _, _ => none

/-- The 64-bit field at `off`, converted from big-endian. -/
def readBE64 (buf : List Nat) (off : Nat) : Option Nat :=
  match readBE32 buf off, readBE32 buf (off + 4) with
  | some h, some l => some (h * 2 ^ 32 + l)
  | _, _ => none

/-- The `n` bytes at `off`, if they all lie inside the buffer. -/
def readBytes (buf : List Nat) (off n : Nat) : Option (List Nat) :=
  if off + n ≤ buf.length then some ((buf.drop off).take n) else none

/-- A 32-bit field at an offset that pointer arithmetic may have moved in front
of the buffer. -/
def readBE32At (buf : List Nat) (off : Int) : Option Nat :=
  if off < 0 then none else readBE32 buf off.toNat

/-- Conversion of a `uint32` to `int`. -/
def toInt32 (x : Nat) : Int :=
  if x % 2 ^ 32 < 2 ^ 31 then ((x % 2 ^ 32 : Nat) : Int) else ((x % 2 ^ 32 : Nat) : Int) - 2 ^ 32

/-- Reduction of an integer to the range of `int` (two's complement). -/
def wrapInt32 (x : Int) : Int := (x + 2 ^ 31) % 2 ^ 32 - 2 ^ 31

/-- Modelled from the spec: the constant `DIR2_FREE_TAG` is declared in a header
that is not among the sources; it is the reserved 16-bit marker that tags an
unused entry, `0xffff` on disk. -/
def DIR2_FREE_TAG : Nat := 0xffff

/-- The function `DataHeader::Size`; the sizes of the two on-disk structures come
from the environment. -/
def DataHeader.Size (env : Env) (inode : Inode) : Nat :=
  if inode.Version = 1 ∨ inode.Version = 2 then env.sizeofDataHeaderV4
  else env.sizeofDataHeaderV5

/-- The function `BlockDirectory::GetBlockTail`, as an offset into the block
buffer (`sizeof(BlockTail)` is 8: two 32-bit counters). -/
def GetBlockTail (inode : Inode) : Int := (inode.DirBlockSize : Int) - 8

/-- The function `BlockDirectory::BlockFirstLeaf`, as an offset into the block
buffer: `count` leaf entries of 8 bytes in front of the tail. -/
def BlockFirstLeaf (tail : Int) (count : Nat) : Int := tail - 8 * (count : Int)

/-- The function `BlockDirectory::GetOffsetFromAddress`. -/
def GetOffsetFromAddress (inode : Inode) (address : Nat) : Nat :=
  let address := (address * 8) % 2 ^ 32
  address &&& (inode.DirBlockSize - 1)

/-- The function `BlockDirectory::Rewind`. -/
def Rewind (dir : BlockDirectory) : status_t × BlockDirectory :=
  (status_t.B_OK, { dir with fOffset := 0 })

/-! ## Enumeration: `GetNext` -/

/-- What a call of `GetNext` leaves behind: the status, the cursor `fOffset`
after the call, and on success the name and the inode number stored through
the out-parameters. -/
structure GetNextResult where
  status : status_t
  fOffset : Nat
  entry : Option (List Nat × Nat)
deriving DecidableEq, Repr

/-- The `for` loop of `BlockDirectory::GetNext`.  `entry` is the scan position as
an offset into the buffer, `currentOffset` the `uint16` running offset, `i` the
loop counter; `length` is the capacity the caller passes in `*length`. -/
def GetNextLoop (inode : Inode) (buf : List Nat) (fOffset length : Nat)
    (numberOfEntries : Int) : Nat → Int → Nat → Nat → Run GetNextResult
  | 0, _, _, _ => Run.outOfFuel
  | fuel + 1, i, entry, currentOffset =>
    if i < numberOfEntries then
      match readBE16 buf entry with
      | none => Run.outOfBounds
      | some freetag =>
        if freetag = DIR2_FREE_TAG then
          match readBE16 buf (entry + 2) with
          | none => Run.outOfBounds
          | some unusedLength =>
            GetNextLoop inode buf fOffset length numberOfEntries fuel (i - 1 + 1)
              (entry + unusedLength) ((currentOffset + unusedLength) % 2 ^ 16)
        else
          match readU8 buf (entry + 8) with
          | none => Run.outOfBounds
          | some namelen =>
            if fOffset ≥ currentOffset then
              GetNextLoop inode buf fOffset length numberOfEntries fuel (i + 1)
                (entry + EntrySize inode namelen)
                ((currentOffset + EntrySize inode namelen) % 2 ^ 16)
            else if namelen ≥ length then
              Run.done { status := status_t.B_BUFFER_OVERFLOW, fOffset := fOffset, entry := none }
            else
              match readBytes buf (entry + 9) namelen, readBE64 buf entry with
              | some name, some inumber =>
                Run.done { status := status_t.B_OK, fOffset := currentOffset,
                           entry := some (name, inumber) }
              | _, _ => Run.outOfBounds
    else
      Run.done { status := status_t.B_ENTRY_NOT_FOUND, fOffset := fOffset, entry := none }

/-- The function `BlockDirectory::GetNext`, with at most `fuel` iterations of
its loop and the capacity `length`. -/
def GetNext (env : Env) (fuel : Nat) (dir : BlockDirectory) (length : Nat) :
    Run GetNextResult :=
  match dir.fBlockBuffer with
  | none => Run.outOfBounds
  | some buf =>
    let entry := DataHeader.Size env dir.fInode
    match readBE32At buf (GetBlockTail dir.fInode),
        readBE32At buf (GetBlockTail dir.fInode + 4) with
    | some count, some stale =>
      let numberOfEntries := wrapInt32 (toInt32 count - toInt32 stale)
      let currentOffset := entry % 2 ^ 16
      GetNextLoop dir.fInode buf dir.fOffset length numberOfEntries fuel 0 entry currentOffset
    | _, _ => Run.outOfBounds

/-- The engine after a call of `GetNext` that ended with `result`. -/
def afterGetNext (dir : BlockDirectory) (result : GetNextResult) : BlockDirectory :=
  { dir with fOffset := result.fOffset }

/-- The results of `n` successive calls of `GetNext`, each with the capacity
`length`; the sequence ends early at a call that does not return. -/
def GetNextCalls (env : Env) (fuel length : Nat) : Nat → BlockDirectory → List (Run GetNextResult)
  | 0, _ => []
  | n + 1, dir =>
    match GetNext env fuel dir length with
    | Run.done result =>
      Run.done result :: GetNextCalls env fuel length n (afterGetNext dir result)
    | Run.outOfBounds => [Run.outOfBounds]
    | Run.outOfFuel => [Run.outOfFuel]

/-! ## Lookup -/

/-- The function `xfs_da_name_comp`; `memcmp` over `length1` bytes is the
comparison of the first `length1` bytes of the two memory regions. -/
def xfs_da_name_comp (name1 : List Nat) (length1 : Nat) (name2 : List Nat) (length2 : Nat) :
    Bool :=
  length1 == length2 && (name1.take length1 == name2.take length1)

/-- The field `hashval` of `leafEntry[index]`. -/
def leafHashval (buf : List Nat) (leafEntry : Int) (index : Int) : Option Nat :=
  readBE32At buf (leafEntry + 8 * index)

/-- The field `address` of `leafEntry[index]`. -/
def leafAddress (buf : List Nat) (leafEntry : Int) (index : Int) : Option Nat :=
  readBE32At buf (leafEntry + 8 * index + 4)

/-- Modelled from the spec: the template `hashLowerBound` is declared in a header
that is not among the sources.  The specification describes it as the binary
search of the ascending leaf array for the lower bound of the target hash; the
call in `Lookup` passes the index range `left = 0`, `right = count - 1` by
reference and continues from `left`.  The search halves the range until
`left` meets `right`: an entry with `hashval >= target` moves `right` to the
middle, a smaller one moves `left` past it. -/
def hashLowerBound (buf : List Nat) (leafEntry : Int) (hashValueOfRequest : Nat) :
    Nat → Int → Int → Run (Int × Int)
  | 0, _, _ => Run.outOfFuel
  | fuel + 1, left, right =>
    if left < right then
      let mid := (left + right).tdiv 2
      match leafHashval buf leafEntry mid with
      | none => Run.outOfBounds
      | some hashval =>
        if hashval ≥ hashValueOfRequest then
          hashLowerBound buf leafEntry hashValueOfRequest fuel left mid
        else
          hashLowerBound buf leafEntry hashValueOfRequest fuel (mid + 1) right
    else
      Run.done (left, right)

/-- What a call of `Lookup` leaves behind: the status and, on success, the
inode number stored through `ino`. -/
structure LookupResult where
  status : status_t
  ino : Option Nat
deriving DecidableEq, Repr

/-- The `while` loop of `BlockDirectory::Lookup`.  The comparison of the names
reads `length` bytes at `entry->name` when the two lengths agree. -/
def LookupLoop (inode : Inode) (buf : List Nat) (name : List Nat) (length : Nat)
    (hashValueOfRequest : Nat) (leafEntry : Int) : Nat → Int → Run LookupResult
  | 0, _ => Run.outOfFuel
  | fuel + 1, left =>
    match leafHashval buf leafEntry left with
    | none => Run.outOfBounds
    | some hashval =>
      if hashval = hashValueOfRequest then
        match leafAddress buf leafEntry left with
        | none => Run.outOfBounds
        | some address =>
          if address = 0 then
            LookupLoop inode buf name length hashValueOfRequest leafEntry fuel (left + 1)
          else
            let offset := GetOffsetFromAddress inode address
            match readU8 buf (offset + 8) with
            | none => Run.outOfBounds
            | some namelen =>
              if length = namelen ∧ buf.length < offset + 9 + length then
                Run.outOfBounds
              else if xfs_da_name_comp name length (buf.drop (offset + 9)) namelen then
                match readBE64 buf offset with
                | none => Run.outOfBounds
                | some inumber => Run.done { status := status_t.B_OK, ino := some inumber }
              else
                LookupLoop inode buf name length hashValueOfRequest leafEntry fuel (left + 1)
      else
        Run.done { status := status_t.B_ENTRY_NOT_FOUND, ino := none }

/-- The function `BlockDirectory::Lookup`, with at most `fuel` iterations of each
of its two loops.  The hash is a `uint32`. -/
def Lookup (env : Env) (fuel : Nat) (dir : BlockDirectory) (name : List Nat) (length : Nat) :
    Run LookupResult :=
  match dir.fBlockBuffer with
  | none => Run.outOfBounds
  | some buf =>
    let hashValueOfRequest := env.hashfunction name length % 2 ^ 32
    let blockTail := GetBlockTail dir.fInode
    match readBE32At buf blockTail with
    | none => Run.outOfBounds
    | some count =>
      let leafEntry := BlockFirstLeaf blockTail count
      let numberOfLeafEntries := toInt32 count
      match hashLowerBound buf leafEntry hashValueOfRequest fuel 0 (numberOfLeafEntries - 1) with
      | Run.done bounds =>
        LookupLoop dir.fInode buf name length hashValueOfRequest leafEntry fuel bounds.1
      | Run.outOfBounds => Run.outOfBounds
      | Run.outOfFuel => Run.outOfFuel

/-! ## Well-formed blocks -/

/-- A record of the data region: a live data entry with its inode number and
name, or an unused entry with its total length. -/
inductive Slot where
  | live (inumber : Nat) (name : List Nat)
  | unused (length : Nat)
deriving DecidableEq, Repr

/-- A live entry of a block: its offset in the block, its name and its inode
number. -/
structure LiveEntry where
  offset : Nat
  name : List Nat
  inumber : Nat
deriving DecidableEq, Repr

/-- The bytes at `off` are the record `slot`: a live entry does not start with
the free tag, holds the inode number, the length byte and the name; an unused
entry starts with the free tag followed by its length, a positive multiple
of 8. -/
def SlotAt (buf : List Nat) (off : Nat) : Slot → Prop
  | Slot.live inumber name =>
    readBE16 buf off ≠ some DIR2_FREE_TAG ∧ readBE64 buf off = some inumber ∧
    readU8 buf (off + 8) = some name.length ∧
    readBytes buf (off + 9) name.length = some name ∧ name.length < 256
  | Slot.unused length =>
    readBE16 buf off = some DIR2_FREE_TAG ∧ readBE16 buf (off + 2) = some length ∧
    0 < length ∧ length % 8 = 0

instance SlotAt.decidable (buf : List Nat) (off : Nat) : (slot : Slot) → Decidable (SlotAt buf off slot)
  | Slot.live inumber name =>
    inferInstanceAs (Decidable (readBE16 buf off ≠ some DIR2_FREE_TAG ∧
      readBE64 buf off = some inumber ∧ readU8 buf (off + 8) = some name.length ∧
      readBytes buf (off + 9) name.length = some name ∧ name.length < 256))
  | Slot.unused length =>
    inferInstanceAs (Decidable (readBE16 buf off = some DIR2_FREE_TAG ∧
      readBE16 buf (off + 2) = some length ∧ 0 < length ∧ length % 8 = 0))

/-- The number of bytes a record occupies. -/
def slotSize (inode : Inode) : Slot → Nat
  | Slot.live _ name => EntrySize inode name.length
  | Slot.unused length => length

/-- The records `slots` lie one after the other in the buffer from offset `off`
on, and end at or below `limit`. -/
def LaidOut (inode : Inode) (buf : List Nat) (limit : Nat) : Nat → List Slot → Prop
  | _, [] => True
  | off, slot :: rest =>
    SlotAt buf off slot ∧ off + slotSize inode slot ≤ limit ∧
    LaidOut inode buf limit (off + slotSize inode slot) rest

instance LaidOut.decidable (inode : Inode) (buf : List Nat) (limit : Nat) :
    (off : Nat) → (slots : List Slot) → Decidable (LaidOut inode buf limit off slots)
  | _, [] => isTrue trivial
  | off, slot :: rest =>
    have := LaidOut.decidable inode buf limit (off + slotSize inode slot) rest
    inferInstanceAs (Decidable (SlotAt buf off slot ∧ off + slotSize inode slot ≤ limit ∧
      LaidOut inode buf limit (off + slotSize inode slot) rest))

/-- The live entries among the records laid out from offset `off` on, in
on-disk order. -/
def liveEntriesFrom (inode : Inode) : Nat → List Slot → List LiveEntry
  | _, [] => []
  | off, Slot.live inumber name :: rest =>
    { offset := off, name := name, inumber := inumber }
      :: liveEntriesFrom inode (off + EntrySize inode name.length) rest
  | off, Slot.unused length :: rest => liveEntriesFrom inode (off + length) rest

/-- The live entries of a block whose data region holds the records `slots`. -/
def liveEntries (env : Env) (inode : Inode) (slots : List Slot) : List LiveEntry :=
  liveEntriesFrom inode (DataHeader.Size env inode) slots

/-- A well-formed single-block directory buffer with the data region `slots`:
the buffer is one directory block of bytes, the block size a power of two of
at most 64 KiB, the header size a positive multiple of 8; the tail holds
`count` and `stale` with `stale ≤ count < 2^31`, the header and the leaf array
of `count` entries in front of the tail fit in the block, the records `slots`
lie one after the other
from the end of the header and end below the leaf array, and exactly
`count - stale` of them are live. -/
def WellFormedBlock (env : Env) (inode : Inode) (buf : List Nat) (slots : List Slot) : Prop :=
  buf.length = inode.DirBlockSize ∧
  (∃ k ∈ List.range 17, inode.DirBlockSize = 2 ^ k) ∧
  (∀ b ∈ buf, b < 256) ∧
  0 < DataHeader.Size env inode ∧ DataHeader.Size env inode % 8 = 0 ∧
  ∃ count ∈ readBE32 buf (inode.DirBlockSize - 8), ∃ stale ∈ readBE32 buf (inode.DirBlockSize - 4),
    stale ≤ count ∧ count < 2 ^ 31 ∧
    DataHeader.Size env inode + 8 + 8 * count ≤ inode.DirBlockSize ∧
    count - stale = (liveEntries env inode slots).length ∧
    LaidOut inode buf (inode.DirBlockSize - 8 - 8 * count) (DataHeader.Size env inode) slots

instance WellFormedBlock.decidable (env : Env) (inode : Inode) (buf : List Nat)
    (slots : List Slot) : Decidable (WellFormedBlock env inode buf slots) := by
  unfold WellFormedBlock
  infer_instance

/-- The leaf entries `leaves` (pairs of `hashval` and `address`) lie one after
the other in the buffer from offset `off` on. -/
def LeavesAt (buf : List Nat) : Nat → List (Nat × Nat) → Prop
  | _, [] => True
  | off, leaf :: rest =>
    readBE32 buf off = some leaf.1 ∧ readBE32 buf (off + 4) = some leaf.2 ∧
    LeavesAt buf (off + 8) rest

instance LeavesAt.decidable (buf : List Nat) :
    (off : Nat) → (leaves : List (Nat × Nat)) → Decidable (LeavesAt buf off leaves)
  | _, [] => isTrue trivial
  | off, leaf :: rest =>
    have := LeavesAt.decidable buf (off + 8) rest
    inferInstanceAs (Decidable (readBE32 buf off = some leaf.1 ∧
      readBE32 buf (off + 4) = some leaf.2 ∧ LeavesAt buf (off + 8) rest))

/-- A well-formed leaf array `leaves` of a block with the data region `slots`:
the tail counts the leaf entries, which lie in front of the tail, ascending by
`hashval`; each non-zero address decodes to the offset of a live entry; the
live entries have pairwise different names. -/
def WellFormedLeaves (env : Env) (inode : Inode) (buf : List Nat) (slots : List Slot)
    (leaves : List (Nat × Nat)) : Prop :=
  readBE32 buf (inode.DirBlockSize - 8) = some leaves.length ∧
  LeavesAt buf (inode.DirBlockSize - 8 - 8 * leaves.length) leaves ∧
  (leaves.map Prod.fst).Pairwise (fun a b => a ≤ b) ∧
  (∀ leaf ∈ leaves, leaf.2 = 0 ∨
    ∃ e ∈ liveEntries env inode slots, GetOffsetFromAddress inode leaf.2 = e.offset) ∧
  ((liveEntries env inode slots).map LiveEntry.name).Nodup

instance WellFormedLeaves.decidable (env : Env) (inode : Inode) (buf : List Nat)
    (slots : List Slot) (leaves : List (Nat × Nat)) :
    Decidable (WellFormedLeaves env inode buf slots leaves) := by
  unfold WellFormedLeaves
  infer_instance

/-- The entry a call of `GetNext` is to report for a block with the live entries
`lives`, the cursor `fOffset` and the capacity `length`: the first live entry
behind the cursor, if there is one and its name fits. -/
def expectedNext (fOffset length : Nat) (lives : List LiveEntry) : GetNextResult :=
  match lives.find? (fun e => decide (fOffset < e.offset)) with
  | some e =>
    if e.name.length ≥ length then
      { status := status_t.B_BUFFER_OVERFLOW, fOffset := fOffset, entry := none }
    else
      { status := status_t.B_OK, fOffset := e.offset, entry := some (e.name, e.inumber) }
  | none => { status := status_t.B_ENTRY_NOT_FOUND, fOffset := fOffset, entry := none }

/-! ## Concrete inodes, devices and blocks used in the examples -/

/-- An inode of one block whose size is one directory block of 4096 bytes and
whose data fork, after a core of 176 bytes, holds `record`. -/
def inodeWithRecord (record : List Nat) : Inode :=
  { Format := 2, Version := 3, BlockCount := 1, Size := 4096, DirBlockSize := 4096,
    HasFileTypeField := true, Buffer := List.replicate 176 0 ++ record, CoreInodeSize := 176,
    FileSystemBlockToAddr := fun block => block * 4096 }

/-- A block of `len` bytes that starts with the magic number `XDB3`. -/
def blockWithMagic (len : Nat) : List Nat :=
  [0x58, 0x44, 0x42, 0x33] ++ List.replicate (len - 4) 0

/-- An environment on a little-endian host in which every allocation succeeds,
the device returns `returned` for every read and leaves `blockWithMagic len`
in the buffer, and the verification accepts a block that starts with the
magic number `XDB3`. -/
def envWithRead (assertEnabled : Bool) (returned : Nat → Int) : Env :=
  { littleEndian := true, assertEnabled := assertEnabled,
    allocMap := true, allocBuffer := true, allocHeader := true,
    read_pos := fun _ len => (returned len, blockWithMagic len),
    VerifyHeader := fun buffer _ => be32 buffer == 0x58444233,
    sizeofDataHeaderV4 := 16, sizeofDataHeaderV5 := 64,
    hashfunction := fun _ _ => 0 }

/-- A fresh engine instance on `inode` that holds no map and no buffer. -/
def freshDirectory (inode : Inode) : BlockDirectory :=
  { fInode := inode, fMap := none, fOffset := 0, fBlockBuffer := none }

/-- Modelled from the spec: the name hash `hashfunction` is declared outside the
sources, and the specification only calls it the 32-bit name hash.  The
examples use the XFS directory name hash: for each byte of the name, the hash
is rotated left by 7 bits and combined with the byte by exclusive or. -/
def hashfunction (name : List Nat) (length : Nat) : Nat :=
  (name.take length).foldl
    (fun hash c => c ^^^ (((hash <<< 7) % 2 ^ 32) ||| (hash >>> 25))) 0

/-- An inode of version 2 without file-type field whose directory block has 512
bytes. -/
def smallInode : Inode :=
  { Format := 2, Version := 2, BlockCount := 1, Size := 512, DirBlockSize := 512,
    HasFileTypeField := false, Buffer := List.replicate 100 0 ++ encodeExtent 0 0 5 1,
    CoreInodeSize := 100, FileSystemBlockToAddr := fun block => block * 512 }

/-- The environment of the examples over `smallInode`: version 4 header of 16
bytes, XFS name hash. -/
def smallEnv : Env :=
  { littleEndian := true, assertEnabled := false,
    allocMap := true, allocBuffer := true, allocHeader := true,
    read_pos := fun _ len => ((len : Int), List.replicate len 0),
    VerifyHeader := fun buffer _ => be32 buffer == 0x58443242,
    sizeofDataHeaderV4 := 16, sizeofDataHeaderV5 := 64,
    hashfunction := hashfunction }

/-- The block of the scenario: `count = 3`, `stale = 1`, the live entries
`"a"` with inode 10 at offset 16 and `"bb"` with inode 20 at offset 48, an
unused entry of 16 bytes between them and the free space behind them. -/
def scenarioBlock : List Nat :=
  [0x58, 0x44, 0x32, 0x42, 0, 0x40, 0x01, 0xa0, 0, 0x20, 0, 0x10, 0, 0, 0, 0]
  ++ [0, 0, 0, 0, 0, 0, 0, 10, 1, 0x61, 0, 0, 0, 0, 0, 0x10]
  ++ [0xff, 0xff, 0, 0x10, 0, 0, 0, 0, 0, 0, 0, 0, 0, 0, 0, 0x20]
  ++ [0, 0, 0, 0, 0, 0, 0, 20, 2, 0x62, 0x62, 0, 0, 0, 0, 0x30]
  ++ [0xff, 0xff, 0x01, 0xa0] ++ List.replicate 410 0 ++ [0, 0x40]
  ++ [0, 0, 0, 0x61, 0, 0, 0, 2]
  ++ [0, 0, 0, 0x63, 0, 0, 0, 0]
  ++ [0, 0, 0x31, 0x62, 0, 0, 0, 6]
  ++ [0, 0, 0, 3, 0, 0, 0, 1]

/-- The records of the data region of `scenarioBlock`. -/
def scenarioSlots : List Slot :=
  [Slot.live 10 [0x61], Slot.unused 16, Slot.live 20 [0x62, 0x62], Slot.unused 416]

/-- The leaf array of `scenarioBlock`. -/
def scenarioLeaves : List (Nat × Nat) := [(0x61, 2), (0x63, 0), (0x3162, 6)]

/-- An engine on `smallInode` that holds the block `buf`, with the cursor at
`fOffset`. -/
def loadedDirectory (buf : List Nat) (fOffset : Nat) : BlockDirectory :=
  { fInode := smallInode, fMap := some (FillMapEntry true (encodeExtent 0 0 5 1)),
    fOffset := fOffset, fBlockBuffer := some buf }

/-- A block with `count = 3` and `stale = 2`: at offset 16 the unused entry left
by the removed entry `[3]` with inode 7 (free tag and length over the first
four bytes, the length byte and the name still in place), at offset 32 the
live entry `[2]` with inode 20, then the free space; the leaf array holds the
hash values 1, 2 and 3, the first and the last with address 0. -/
def tombstoneBlock : List Nat :=
  [0x58, 0x44, 0x32, 0x42, 0, 0x30, 0x01, 0xb0, 0, 0x10, 0, 0x10, 0, 0, 0, 0]
  ++ [0xff, 0xff, 0, 0x10, 0, 0, 0, 7, 1, 3, 0, 0, 0, 0, 0, 0x10]
  ++ [0, 0, 0, 0, 0, 0, 0, 20, 1, 2, 0, 0, 0, 0, 0, 0x20]
  ++ [0xff, 0xff, 0x01, 0xb0] ++ List.replicate 426 0 ++ [0, 0x30]
  ++ [0, 0, 0, 1, 0, 0, 0, 0]
  ++ [0, 0, 0, 2, 0, 0, 0, 4]
  ++ [0, 0, 0, 3, 0, 0, 0, 0]
  ++ [0, 0, 0, 3, 0, 0, 0, 2]

/-- The records of the data region of `tombstoneBlock`. -/
def tombstoneSlots : List Slot :=
  [Slot.unused 16, Slot.live 20 [2], Slot.unused 432]

/-- The leaf array of `tombstoneBlock`. -/
def tombstoneLeaves : List (Nat × Nat) := [(1, 0), (2, 4), (3, 0)]

/-- A block with `count = 3` and `stale = 1` whose three leaf entries carry the
same hash value `0x3101`: an empty slot, the live entry `[0x62, 0x01]` with
inode 30 at offset 16 and the live entry `[0x63, 0x81]` with inode 40 at
offset 32. -/
def collisionBlock : List Nat :=
  [0x58, 0x44, 0x32, 0x42, 0, 0x30, 0x01, 0xb0, 0, 0, 0, 0, 0, 0, 0, 0]
  ++ [0, 0, 0, 0, 0, 0, 0, 30, 2, 0x62, 0x01, 0, 0, 0, 0, 0x10]
  ++ [0, 0, 0, 0, 0, 0, 0, 40, 2, 0x63, 0x81, 0, 0, 0, 0, 0x20]
  ++ [0xff, 0xff, 0x01, 0xb0] ++ List.replicate 426 0 ++ [0, 0x30]
  ++ [0, 0, 0x31, 0x01, 0, 0, 0, 0]
  ++ [0, 0, 0x31, 0x01, 0, 0, 0, 2]
  ++ [0, 0, 0x31, 0x01, 0, 0, 0, 4]
  ++ [0, 0, 0, 3, 0, 0, 0, 1]

/-- The records of the data region of `collisionBlock`. -/
def collisionSlots : List Slot :=
  [Slot.live 30 [0x62, 0x01], Slot.live 40 [0x63, 0x81], Slot.unused 432]

/-- The leaf array of `collisionBlock`. -/
def collisionLeaves : List (Nat × Nat) := [(0x3101, 0), (0x3101, 2), (0x3101, 4)]

/-- Modelled from the spec: the constants `XFS_DINODE_FMT_LOCAL`,
`XFS_DINODE_FMT_EXTENTS` and `XFS_DINODE_FMT_BTREE` are declared in a header
that is not among the sources; they are three different values of the format
field of the inode (inline, extent and B+Tree storage), 1, 2 and 3 on disk. -/
def XFS_DINODE_FMT_LOCAL : Nat := 1

/-- Modelled from the spec: see `XFS_DINODE_FMT_LOCAL`. -/
def XFS_DINODE_FMT_EXTENTS : Nat := 2

/-- Modelled from the spec: see `XFS_DINODE_FMT_LOCAL`. -/
def XFS_DINODE_FMT_BTREE : Nat := 3

/-- What the collaborators of the dispatcher answer for one inode: whether each
`new(std::nothrow)` succeeds, the type-check of each extent engine, the status
of each `Init`, and the status of `TreeDirectory::InitCheck`. -/
structure Collaborators where
  allocShort : Bool
  allocBlock : Bool
  allocLeaf : Bool
  allocNode : Bool
  allocTree : Bool
  IsBlockType : Bool
  blockInit : status_t
  IsLeafType : Bool
  leafInit : status_t
  IsNodeType : Bool
  nodeInit : status_t
  treeInitCheck : status_t

/-- The engine a `DirectoryIterator*` points to. -/
inductive Engine where
  | ShortDirectory
  | BlockDirectory
  | LeafDirectory
  | NodeDirectory
  | TreeDirectory
deriving DecidableEq, Repr

/-- The calls the dispatcher makes on its collaborators. -/
inductive DispatchCall where
  | newShortDirectory
  | newBlockDirectory
  | IsBlockType
  | BlockInit
  | deleteBlockDirectory
  | newLeafDirectory
  | IsLeafType
  | LeafInit
  | deleteLeafDirectory
  | newNodeDirectory
  | IsNodeType
  | NodeInit
  | deleteNodeDirectory
  | newTreeDirectory
  | TreeInitCheck
deriving DecidableEq, Repr

/-- The block of `DirectoryIterator::Init` for the extent format.  The first
component is `some result` when the block returns `result` (`none` for
`NULL`), and `none` when control leaves the block at its end; the second is
the sequence of calls made. -/
def DirectoryIterator.InitExtents (c : Collaborators) :
    Option (Option Engine) × List DispatchCall :=
  if c.allocBlock = false then
    (some none, [DispatchCall.newBlockDirectory])
  else if c.IsBlockType = true ∧ c.blockInit = status_t.B_OK then
    (some (some Engine.BlockDirectory),
      [DispatchCall.newBlockDirectory, DispatchCall.IsBlockType, DispatchCall.BlockInit])
  else
    let calls := [DispatchCall.newBlockDirectory, DispatchCall.IsBlockType]
      ++ (if c.IsBlockType = true then [DispatchCall.BlockInit] else [])
      ++ [DispatchCall.deleteBlockDirectory, DispatchCall.newLeafDirectory]
    if c.allocLeaf = false then
      (some none, calls)
    else if c.IsLeafType = true ∧ c.leafInit = status_t.B_OK then
      (some (some Engine.LeafDirectory),
        calls ++ [DispatchCall.IsLeafType, DispatchCall.LeafInit])
    else
      let calls := calls ++ [DispatchCall.IsLeafType]
        ++ (if c.IsLeafType = true then [DispatchCall.LeafInit] else [])
        ++ [DispatchCall.deleteLeafDirectory, DispatchCall.newNodeDirectory]
      if c.allocNode = false then
        (some none, calls)
      else if c.IsNodeType = true ∧ c.nodeInit = status_t.B_OK then
        (some (some Engine.NodeDirectory),
          calls ++ [DispatchCall.IsNodeType, DispatchCall.NodeInit])
      else
        (none, calls ++ [DispatchCall.IsNodeType]
          ++ (if c.IsNodeType = true then [DispatchCall.NodeInit] else [])
          ++ [DispatchCall.deleteNodeDirectory])

/-- The function `DirectoryIterator::Init`: the engine returned (`none` for
`NULL`) and the sequence of calls made on the collaborators. -/
def DirectoryIterator.Init (c : Collaborators) (inode : Inode) :
    Option Engine × List DispatchCall :=
  if inode.Format = XFS_DINODE_FMT_LOCAL then
    (if c.allocShort = true then some Engine.ShortDirectory else none,
      [DispatchCall.newShortDirectory])
  else
    let extents :=
      if inode.Format = XFS_DINODE_FMT_EXTENTS then DirectoryIterator.InitExtents c
      else (none, [])
    match extents.1 with
    | some result => (result, extents.2)
    | none =>
      if inode.Format = XFS_DINODE_FMT_BTREE then
        if c.allocTree = false then
          (none, extents.2 ++ [DispatchCall.newTreeDirectory])
        else if c.treeInitCheck = status_t.B_OK then
          (some Engine.TreeDirectory,
            extents.2 ++ [DispatchCall.newTreeDirectory, DispatchCall.TreeInitCheck])
        else
          (none, extents.2 ++ [DispatchCall.newTreeDirectory, DispatchCall.TreeInitCheck])
      else
        (none, extents.2)

/-- An inode of the given format. -/
def inodeOfFormat (format : Nat) : Inode :=
  { Format := format, Version := 3, BlockCount := 1, Size := 4096, DirBlockSize := 4096,
    HasFileTypeField := true, Buffer := [], CoreInodeSize := 176,
    FileSystemBlockToAddr := fun block => block * 4096 }

/-- Collaborators whose allocations all succeed. -/
def collaborators (isBlock : Bool) (blockInit : status_t) (isLeaf : Bool) (leafInit : status_t)
    (isNode : Bool) (nodeInit : status_t) (treeInitCheck : status_t) : Collaborators :=
  { allocShort := true, allocBlock := true, allocLeaf := true, allocNode := true,
    allocTree := true, IsBlockType := isBlock, blockInit := blockInit, IsLeafType := isLeaf,
    leafInit := leafInit, IsNodeType := isNode, nodeInit := nodeInit,
    treeInitCheck := treeInitCheck }

/-- A block of 512 bytes with a version 4 header, `count = 1` and `stale = 0`,
whose first record is free-tagged with the length field 0. -/
def zeroLengthBlock : List Nat :=
  [0x58, 0x44, 0x32, 0x42, 0, 0, 0, 0, 0, 0, 0, 0, 0, 0, 0, 0]
  ++ [0xff, 0xff, 0, 0] ++ List.replicate 484 0
  ++ [0, 0, 0, 1, 0, 0, 0, 0]

/-- The `while` loop of `BlockDirectory::Lookup` once more, with the same tests
and reads as `LookupLoop`, paired with the indices `left` at which it reads
`leafEntry[left]`, in the order of the reads. -/
def LookupLoopTraced (inode : Inode) (buf : List Nat) (name : List Nat) (length : Nat)
    (hashValueOfRequest : Nat) (leafEntry : Int) : Nat → Int → Run LookupResult × List Int
  | 0, _ => (Run.outOfFuel, [])
  | fuel + 1, left =>
    match leafHashval buf leafEntry left with
    | none => (Run.outOfBounds, [left])
    | some hashval =>
      if hashval = hashValueOfRequest then
        match leafAddress buf leafEntry left with
        | none => (Run.outOfBounds, [left])
        | some address =>
          if address = 0 then
            ((LookupLoopTraced inode buf name length hashValueOfRequest leafEntry fuel
                (left + 1)).1,
              left :: (LookupLoopTraced inode buf name length hashValueOfRequest leafEntry fuel
                (left + 1)).2)
          else
            let offset := GetOffsetFromAddress inode address
            match readU8 buf (offset + 8) with
            | none => (Run.outOfBounds, [left])
            | some namelen =>
              if length = namelen ∧ buf.length < offset + 9 + length then
                (Run.outOfBounds, [left])
              else if xfs_da_name_comp name length (buf.drop (offset + 9)) namelen then
                match readBE64 buf offset with
                | none => (Run.outOfBounds, [left])
                | some inumber =>
                  (Run.done { status := status_t.B_OK, ino := some inumber }, [left])
              else
                ((LookupLoopTraced inode buf name length hashValueOfRequest leafEntry fuel
                    (left + 1)).1,
                  left :: (LookupLoopTraced inode buf name length hashValueOfRequest leafEntry
                    fuel (left + 1)).2)
      else
        (Run.done { status := status_t.B_ENTRY_NOT_FOUND, ino := none }, [left])

/-- The function `BlockDirectory::Lookup` as in `Lookup`, paired with the
indices at which its `while` loop reads the leaf array. -/
def LookupTraced (env : Env) (fuel : Nat) (dir : BlockDirectory) (name : List Nat)
    (length : Nat) : Run LookupResult × List Int :=
  match dir.fBlockBuffer with
  | none => (Run.outOfBounds, [])
  | some buf =>
    let hashValueOfRequest := env.hashfunction name length % 2 ^ 32
    let blockTail := GetBlockTail dir.fInode
    match readBE32At buf blockTail with
    | none => (Run.outOfBounds, [])
    | some count =>
      let leafEntry := BlockFirstLeaf blockTail count
      let numberOfLeafEntries := toInt32 count
      match hashLowerBound buf leafEntry hashValueOfRequest fuel 0 (numberOfLeafEntries - 1) with
      | Run.done bounds =>
        LookupLoopTraced dir.fInode buf name length hashValueOfRequest leafEntry fuel bounds.1
      | Run.outOfBounds => (Run.outOfBounds, [])
      | Run.outOfFuel => (Run.outOfFuel, [])

/-- A corrupt block of 512 bytes with a version 4 header: the tail holds
`count = 4096`, more leaf entries than the block has room for, and the first
record is free-tagged with the length `0xfff8`. -/
def corruptBlock : List Nat :=
  [0x58, 0x44, 0x32, 0x42, 0, 0, 0, 0, 0, 0, 0, 0, 0, 0, 0, 0]
  ++ [0xff, 0xff, 0xff, 0xf8] ++ List.replicate 484 0
  ++ [0, 0, 0x10, 0, 0, 0, 0, 0]

/-! ## Theorems -/

theorem MASK_eq (n : Nat) : MASK n = 2 ^ n - 1 := by
  simp [MASK, Nat.one_shiftLeft]

theorem and_MASK (x n : Nat) : x &&& MASK n = x % 2 ^ n := by
  rw [MASK_eq, Nat.and_pow_two_sub_one_eq_mod]

/-- A shifted value and a value below the shift have no common bit. -/
theorem mul_or_eq_add (a b k : Nat) (hb : b < 2 ^ k) : a * 2 ^ k ||| b = a * 2 ^ k + b := by
  rw [Nat.mul_comm, Nat.mul_add_lt_is_or hb]

theorem bswap64_bytes (b0 b1 b2 b3 b4 b5 b6 b7 : Nat) (h0 : b0 < 256) (h1 : b1 < 256)
    (h2 : b2 < 256) (h3 : b3 < 256) (h4 : b4 < 256) (h5 : b5 < 256) (h6 : b6 < 256)
    (h7 : b7 < 256) :
    bswap64 (b0 + b1 * 2 ^ 8 + b2 * 2 ^ 16 + b3 * 2 ^ 24 + b4 * 2 ^ 32 + b5 * 2 ^ 40
      + b6 * 2 ^ 48 + b7 * 2 ^ 56)
    = b0 * 2 ^ 56 + b1 * 2 ^ 48 + b2 * 2 ^ 40 + b3 * 2 ^ 32 + b4 * 2 ^ 24 + b5 * 2 ^ 16
      + b6 * 2 ^ 8 + b7 := by
  unfold bswap64
  omega

/-- On either host, loading a word and converting it from big-endian gives
the big-endian value of the eight bytes in memory. -/
theorem bendian_load_eq (le : Bool) (p : List Nat) (hp : ∀ i, i < 8 → byteAt p i < 256) :
    B_BENDIAN_TO_HOST_INT64 le (loadU64 le p) = loadU64 false p := by
  cases le
  · simp [B_BENDIAN_TO_HOST_INT64]
  · simp only [B_BENDIAN_TO_HOST_INT64, loadU64, if_true]
    rw [bswap64_bytes _ _ _ _ _ _ _ _ (hp 0 (by omega)) (hp 1 (by omega)) (hp 2 (by omega))
      (hp 3 (by omega)) (hp 4 (by omega)) (hp 5 (by omega)) (hp 6 (by omega)) (hp 7 (by omega))]
    simp

theorem loadU64_be64Bytes (w : Nat) (hw : w < 2 ^ 64) (rest : List Nat) :
    loadU64 false (be64Bytes w ++ rest) = w := by
  simp [loadU64, be64Bytes, byteAt]
  omega

theorem byteAt_be64Bytes_lt (w : Nat) (rest : List Nat) (i : Nat) (hi : i < 8) :
    byteAt (be64Bytes w ++ rest) i < 256 := by
  have h : i = 0 ∨ i = 1 ∨ i = 2 ∨ i = 3 ∨ i = 4 ∨ i = 5 ∨ i = 6 ∨ i = 7 := by omega
  rcases h with h | h | h | h | h | h | h | h <;> subst h <;>
    simp [be64Bytes, byteAt] <;> omega

theorem bendian_load (le : Bool) (w : Nat) (hw : w < 2 ^ 64) (rest : List Nat) :
    B_BENDIAN_TO_HOST_INT64 le (loadU64 le (be64Bytes w ++ rest)) = w := by
  rw [bendian_load_eq le _ (byteAt_be64Bytes_lt w rest), loadU64_be64Bytes w hw]

/-- C1 (amended): for a state of 1 bit, a start offset of 54 bits, a start
block of 52 bits and a block count of 21 bits, `FillMapEntry` applied on
either host to the 16-byte big-endian record that packs them gives back
exactly these four values. -/
theorem FillMapEntry_encodeExtent (le : Bool) (state startoff startblock blockcount : Nat)
    (hstate : state < 2) (hoff : startoff < 2 ^ 54) (hblock : startblock < 2 ^ 52)
    (hcount : blockcount < 2 ^ 21) :
    FillMapEntry le (encodeExtent state startoff startblock blockcount)
      = { br_state := state, br_startoff := startoff, br_startblock := startblock,
          br_blockcount := blockcount } := by
  have h1 : (state * 2 ^ 63 + startoff * 2 ^ 9 + startblock / 2 ^ 43) % 2 ^ 64 < 2 ^ 64 :=
    Nat.mod_lt _ (by norm_num)
  have h2 : (startblock % 2 ^ 43 * 2 ^ 21 + blockcount) % 2 ^ 64 < 2 ^ 64 :=
    Nat.mod_lt _ (by norm_num)
  have hdrop : (encodeExtent state startoff startblock blockcount).drop 8
      = be64Bytes ((startblock % 2 ^ 43 * 2 ^ 21 + blockcount) % 2 ^ 64) ++ [] := by
    simp [encodeExtent, be64Bytes]
  unfold FillMapEntry
  simp only [hdrop]
  simp only [encodeExtent, bendian_load le _ h1, bendian_load le _ h2, and_MASK,
    Nat.shiftRight_eq_div_pow, Nat.shiftLeft_eq]
  have hlow : ((state * 2 ^ 63 + startoff * 2 ^ 9 + startblock / 2 ^ 43) % 2 ^ 64 % 2 ^ 9
      * 2 ^ 43) % 2 ^ 64 = startblock / 2 ^ 43 * 2 ^ 43 := by omega
  have hhigh : (startblock % 2 ^ 43 * 2 ^ 21 + blockcount) % 2 ^ 64 / 2 ^ 21
      = startblock % 2 ^ 43 := by omega
  rw [hlow, hhigh, mul_or_eq_add _ _ _ (Nat.mod_lt _ (by norm_num))]
  congr 1 <;> omega

/-- C1 (witness): the amended round trip at state 1, start offset `2^54 - 1`,
start block `2^52 - 1` and block count 1, on a little-endian host. -/
theorem FillMapEntry_encodeExtent_witness :
    FillMapEntry true (encodeExtent 1 (2 ^ 54 - 1) (2 ^ 52 - 1) 1)
      = { br_state := 1, br_startoff := 2 ^ 54 - 1, br_startblock := 2 ^ 52 - 1,
          br_blockcount := 1 } :=
  FillMapEntry_encodeExtent true 1 (2 ^ 54 - 1) (2 ^ 52 - 1) 1 (by norm_num) (by norm_num)
    (by norm_num) (by norm_num)

/-- C1 (counterexample): the start offset `2^54` lies within the 63 bits the
specification gives, yet the record that packs state 0, start offset `2^54`,
start block 0 and block count 1 decodes, on either host, to start offset 0
(and state 1); in fact no record at all decodes to start offset `2^54`. -/
theorem FillMapEntry_startoff_63_bits_counterexample :
    (2 ^ 54 < 2 ^ 63) ∧
    FillMapEntry true (encodeExtent 0 (2 ^ 54) 0 1)
      = { br_state := 1, br_startoff := 0, br_startblock := 0, br_blockcount := 1 } ∧
    FillMapEntry false (encodeExtent 0 (2 ^ 54) 0 1)
      = { br_state := 1, br_startoff := 0, br_startblock := 0, br_blockcount := 1 } ∧
    ∀ (le : Bool) (record : List Nat), (FillMapEntry le record).br_startoff ≠ 2 ^ 54 := by
  refine ⟨by norm_num, by decide, by decide, ?_⟩
  intro le record h
  have : (FillMapEntry le record).br_startoff < 2 ^ 54 := by
    simp only [FillMapEntry, and_MASK, Nat.shiftRight_eq_div_pow]
    omega
  omega


/-! ### `IsBlockType` -/

/-- The value of `IsBlockType` in terms of the three tests it makes: the third
is on the first word of the data fork as the host loads it. -/
theorem IsBlockType_iff (le : Bool) (inode : Inode) :
    IsBlockType le inode = true ↔
      inode.BlockCount = 1 ∧ inode.Size = inode.DirBlockSize ∧
      (loadU64 le (DIR_DFORK_PTR inode.Buffer inode.CoreInodeSize) &&& MASK 63) >>> 9 = 0 := by
  unfold IsBlockType
  by_cases h1 : inode.BlockCount = 1 <;> by_cases h2 : inode.Size = inode.DirBlockSize <;>
    by_cases h3 : (loadU64 le (DIR_DFORK_PTR inode.Buffer inode.CoreInodeSize) &&& MASK 63)
      >>> 9 = 0 <;> simp [h1, h2, h3]

/-- On a big-endian host the third test of `IsBlockType` is on the start offset
that `FillMapEntry` decodes. -/
theorem IsBlockType_big_endian (inode : Inode) :
    IsBlockType false inode = true ↔
      inode.BlockCount = 1 ∧ inode.Size = inode.DirBlockSize ∧
      (FillMapEntry false (DIR_DFORK_PTR inode.Buffer inode.CoreInodeSize)).br_startoff = 0 := by
  rw [IsBlockType_iff]
  simp [FillMapEntry, B_BENDIAN_TO_HOST_INT64]

/-- C2 (the code at the failing inputs): on a little-endian host, an inode of
one block and of one directory block in size whose extent record has start
offset 0 (and start block `2^43`) is refused by `IsBlockType`, and one whose
extent record has start offset `2^47` is accepted. -/
theorem IsBlockType_little_endian_disagrees :
    ((inodeWithRecord (encodeExtent 0 0 (2 ^ 43) 1)).BlockCount = 1 ∧
      (inodeWithRecord (encodeExtent 0 0 (2 ^ 43) 1)).Size
        = (inodeWithRecord (encodeExtent 0 0 (2 ^ 43) 1)).DirBlockSize ∧
      (FillMapEntry true (DIR_DFORK_PTR (inodeWithRecord (encodeExtent 0 0 (2 ^ 43) 1)).Buffer
        (inodeWithRecord (encodeExtent 0 0 (2 ^ 43) 1)).CoreInodeSize)).br_startoff = 0 ∧
      IsBlockType true (inodeWithRecord (encodeExtent 0 0 (2 ^ 43) 1)) = false) ∧
    ((FillMapEntry true (DIR_DFORK_PTR (inodeWithRecord (encodeExtent 0 (2 ^ 47) 0 1)).Buffer
        (inodeWithRecord (encodeExtent 0 (2 ^ 47) 0 1)).CoreInodeSize)).br_startoff = 2 ^ 47 ∧
      IsBlockType true (inodeWithRecord (encodeExtent 0 (2 ^ 47) 0 1)) = true) := by
  decide

/-! ### `EntrySize` -/

set_option maxRecDepth 100000 in
theorem land_minus_eight : ∀ n, n < 300 →
    (n + 7) % 2 ^ 32 &&& (2 ^ 32 - 8) = (n + 7) / 8 * 8 := by
  decide

theorem EntrySize_eq (inode : Inode) (namelen : Nat) (h : namelen ≤ 255) :
    EntrySize inode namelen = (namelen + fixedOverhead inode + 7) / 8 * 8 := by
  unfold EntrySize fixedOverhead
  cases inode.HasFileTypeField
  · simp only [Bool.false_eq_true, if_false]
    rw [land_minus_eight (8 + 1 + namelen + 2) (by omega)]
    congr 2
    omega
  · simp only [if_true]
    rw [land_minus_eight (8 + 1 + namelen + 2 + 1) (by omega)]
    congr 2
    omega

/-- C7: for a name length of at most 255 and either setting of the file-type
flag, `EntrySize` is a multiple of 8, is at least the name length plus the
fixed overhead, exceeds it by at most 7, and is the least multiple of 8 that
is at least the name length plus the fixed overhead. -/
theorem EntrySize_round_up (inode : Inode) (namelen : Nat) (h : namelen ≤ 255) :
    8 ∣ EntrySize inode namelen ∧
    namelen + fixedOverhead inode ≤ EntrySize inode namelen ∧
    EntrySize inode namelen ≤ namelen + fixedOverhead inode + 7 ∧
    ∀ m, 8 ∣ m → namelen + fixedOverhead inode ≤ m → EntrySize inode namelen ≤ m := by
  rw [EntrySize_eq inode namelen h]
  refine ⟨Dvd.intro_left _ rfl, by omega, by omega, ?_⟩
  intro m hm hle
  obtain ⟨k, rfl⟩ := hm
  omega

/-- C7 (witness): the name length 255 on a filesystem with a file-type field. -/
theorem EntrySize_round_up_witness :
    255 ≤ 255 ∧
    (8 ∣ EntrySize (inodeWithRecord []) 255 ∧
      255 + fixedOverhead (inodeWithRecord []) ≤ EntrySize (inodeWithRecord []) 255 ∧
      EntrySize (inodeWithRecord []) 255 ≤ 255 + fixedOverhead (inodeWithRecord []) + 7 ∧
      ∀ m, 8 ∣ m → 255 + fixedOverhead (inodeWithRecord []) ≤ m →
        EntrySize (inodeWithRecord []) 255 ≤ m) :=
  ⟨le_refl 255, EntrySize_round_up (inodeWithRecord []) 255 (le_refl 255)⟩

/-! ### The version 4 header -/

/-- C8 (amended): for every buffer, the version 4 header decoded from it
reports block number, log-sequence number and owner as the value of
`B_BAD_VALUE` converted to `uint64`, which is not zero, and reports the UUID
as the all-zero UUID. -/
theorem DataHeaderV4_optional_fields (buffer : List Nat) :
    (DataHeaderV4.create buffer).Blockno = 2 ^ 64 - 2147483643 ∧
    (DataHeaderV4.create buffer).Lsn = 2 ^ 64 - 2147483643 ∧
    (DataHeaderV4.create buffer).Owner = 2 ^ 64 - 2147483643 ∧
    (DataHeaderV4.create buffer).Blockno ≠ 0 ∧
    (DataHeaderV4.create buffer).Lsn ≠ 0 ∧
    (DataHeaderV4.create buffer).Owner ≠ 0 ∧
    (DataHeaderV4.create buffer).Uuid = List.replicate 16 0 := by
  have hvalue : toUInt64 status_t.B_BAD_VALUE.toInt = 2 ^ 64 - 2147483643 := by decide
  unfold DataHeaderV4.Blockno DataHeaderV4.Lsn DataHeaderV4.Owner DataHeaderV4.Uuid nullUuid
  rw [hvalue]
  exact ⟨rfl, rfl, rfl, by norm_num, by norm_num, by norm_num, rfl⟩

/-- C8 (counterexample): the version 4 header decoded from a block that starts
with the magic number `XD2B` reports the all-zero UUID. -/
theorem DataHeaderV4_Uuid_is_zero_counterexample :
    ¬ ((DataHeaderV4.create [0x58, 0x44, 0x32, 0x42, 0, 0, 0, 0]).Uuid
        ≠ [0, 0, 0, 0, 0, 0, 0, 0, 0, 0, 0, 0, 0, 0, 0, 0]) := by
  decide

/-! ### `Init` -/

/-- What `Init` does with an extent record whose block count is not 1 (the map
allocation succeeding): the block count is tested by `ASSERT` alone.  With
`ASSERT` compiled in, `Init` stops in the failed assertion and the
block-buffer field is as before; with `ASSERT` compiled out nothing tests the
block count, `Init` goes on to load the block, and returns `B_OK` with the
block installed when the extent state is 0, the allocations and the read
succeed and the header verifies. -/
theorem Init_blockcount_not_one (env : Env) (dir : BlockDirectory)
    (hmap : env.allocMap = true)
    (hcount : (FillMapEntry env.littleEndian
      (DIR_DFORK_PTR dir.fInode.Buffer dir.fInode.CoreInodeSize)).br_blockcount ≠ 1) :
    (env.assertEnabled = true →
      (Init env dir).1 = InitOutcome.assertFailed ∧
      (Init env dir).2.fBlockBuffer = dir.fBlockBuffer) ∧
    (env.assertEnabled = false →
      (FillMapEntry env.littleEndian
        (DIR_DFORK_PTR dir.fInode.Buffer dir.fInode.CoreInodeSize)).br_state = 0 →
      env.allocBuffer = true →
      (env.read_pos (dir.fInode.FileSystemBlockToAddr (FillMapEntry env.littleEndian
        (DIR_DFORK_PTR dir.fInode.Buffer dir.fInode.CoreInodeSize)).br_startblock)
        dir.fInode.DirBlockSize).1 = (dir.fInode.DirBlockSize : Int) →
      env.allocHeader = true →
      env.VerifyHeader (env.read_pos (dir.fInode.FileSystemBlockToAddr
        (FillMapEntry env.littleEndian
          (DIR_DFORK_PTR dir.fInode.Buffer dir.fInode.CoreInodeSize)).br_startblock)
        dir.fInode.DirBlockSize).2
        (FillMapEntry env.littleEndian
          (DIR_DFORK_PTR dir.fInode.Buffer dir.fInode.CoreInodeSize)) = true →
      (Init env dir).1 = InitOutcome.returned status_t.B_OK ∧
      (Init env dir).2.fBlockBuffer = some (env.read_pos (dir.fInode.FileSystemBlockToAddr
        (FillMapEntry env.littleEndian
          (DIR_DFORK_PTR dir.fInode.Buffer dir.fInode.CoreInodeSize)).br_startblock)
        dir.fInode.DirBlockSize).2) := by
  constructor
  · intro hassert
    unfold Init
    by_cases hblock : IsBlockType env.littleEndian dir.fInode = true
    · simp [hmap, hassert, hblock, hcount]
    · simp [hmap, hassert, hblock]
  · intro hassert hstate halloc hread hheader hverify
    unfold Init FillBlockBuffer
    simp [hmap, hassert, hstate, halloc, hread, hheader, hverify]

/-- An instance of `Init_blockcount_not_one`: the extent record with block
count 2, with `ASSERT` compiled out and a device that returns whole blocks. -/
theorem Init_blockcount_not_one_witness :
    (FillMapEntry true (DIR_DFORK_PTR (inodeWithRecord (encodeExtent 0 0 5 2)).Buffer
      (inodeWithRecord (encodeExtent 0 0 5 2)).CoreInodeSize)).br_blockcount ≠ 1 ∧
    (Init (envWithRead false (fun len => len))
      (freshDirectory (inodeWithRecord (encodeExtent 0 0 5 2)))).1
      = InitOutcome.returned status_t.B_OK :=
  ⟨by decide,
    ((Init_blockcount_not_one (envWithRead false (fun len => len))
      (freshDirectory (inodeWithRecord (encodeExtent 0 0 5 2))) rfl (by decide)).2
      rfl (by decide) rfl (by decide) rfl (by decide)).1⟩

/-- C9 (the code at the failing input): for the extent record with state 0 and
block count 2, which violates `ASSERT(fMap->br_blockcount == 1)`, `Init` with
`ASSERT` compiled out tests nothing: it loads the block and returns `B_OK`,
with the buffer installed; with `ASSERT` compiled in it stops in the
assertion.  In neither build does it return `B_BAD_VALUE`. -/
theorem Init_blockcount_two_not_rejected :
    (FillMapEntry true (DIR_DFORK_PTR (inodeWithRecord (encodeExtent 0 0 5 2)).Buffer
      (inodeWithRecord (encodeExtent 0 0 5 2)).CoreInodeSize)).br_blockcount = 2 ∧
    (Init (envWithRead false (fun len => len))
      (freshDirectory (inodeWithRecord (encodeExtent 0 0 5 2)))).1
      = InitOutcome.returned status_t.B_OK ∧
    (Init (envWithRead true (fun len => len))
      (freshDirectory (inodeWithRecord (encodeExtent 0 0 5 2)))).1
      = InitOutcome.assertFailed ∧
    (Init (envWithRead false (fun len => len))
      (freshDirectory (inodeWithRecord (encodeExtent 0 0 5 2)))).2.fBlockBuffer ≠ none := by
  refine ⟨by decide, by decide, by decide, ?_⟩
  simp [Init, FillBlockBuffer, envWithRead, freshDirectory]
  decide

/-- C10 (amended): when the map allocation succeeds, no assertion fails, the
extent state is 0, the buffer allocation succeeds and the device read returns
fewer bytes than the directory block size, `Init` returns `B_IO_ERROR` and the
block-buffer field holds the buffer that was allocated for the read. -/
theorem Init_short_read (env : Env) (dir : BlockDirectory)
    (hmap : env.allocMap = true)
    (hassert : env.assertEnabled = false ∨
      (IsBlockType env.littleEndian dir.fInode = true ∧
        (FillMapEntry env.littleEndian
          (DIR_DFORK_PTR dir.fInode.Buffer dir.fInode.CoreInodeSize)).br_blockcount = 1))
    (hstate : (FillMapEntry env.littleEndian
      (DIR_DFORK_PTR dir.fInode.Buffer dir.fInode.CoreInodeSize)).br_state = 0)
    (halloc : env.allocBuffer = true)
    (hshort : (env.read_pos (dir.fInode.FileSystemBlockToAddr (FillMapEntry env.littleEndian
        (DIR_DFORK_PTR dir.fInode.Buffer dir.fInode.CoreInodeSize)).br_startblock)
        dir.fInode.DirBlockSize).1 < (dir.fInode.DirBlockSize : Int)) :
    (Init env dir).1 = InitOutcome.returned status_t.B_IO_ERROR ∧
    (Init env dir).2.fBlockBuffer = some (env.read_pos (dir.fInode.FileSystemBlockToAddr
      (FillMapEntry env.littleEndian
        (DIR_DFORK_PTR dir.fInode.Buffer dir.fInode.CoreInodeSize)).br_startblock)
      dir.fInode.DirBlockSize).2 := by
  have hne := ne_of_lt hshort
  unfold Init FillBlockBuffer
  rcases hassert with hassert | ⟨hblock, hcount⟩
  · simp [hmap, hassert, hstate, halloc, hne]
  · simp [hmap, hblock, hcount, hstate, halloc, hne]

/-- C10 (witness): a device that returns 100 bytes for the block of 4096. -/
theorem Init_short_read_witness :
    (Init (envWithRead true (fun _ => 100))
      (freshDirectory (inodeWithRecord (encodeExtent 0 0 5 1)))).1
      = InitOutcome.returned status_t.B_IO_ERROR ∧
    (Init (envWithRead true (fun _ => 100))
      (freshDirectory (inodeWithRecord (encodeExtent 0 0 5 1)))).2.fBlockBuffer
      = some (blockWithMagic 4096) :=
  Init_short_read (envWithRead true (fun _ => 100))
    (freshDirectory (inodeWithRecord (encodeExtent 0 0 5 1))) rfl
    (Or.inr ⟨by decide, by decide⟩) (by decide) rfl (by decide)

/-- C10 (counterexample): the device returns 100 bytes for the block of 4096;
`Init` returns `B_IO_ERROR` and the block-buffer field, empty before the call,
holds a buffer afterwards. -/
theorem Init_short_read_buffer_counterexample :
    (freshDirectory (inodeWithRecord (encodeExtent 0 0 5 1))).fBlockBuffer = none ∧
    (Init (envWithRead true (fun _ => 100))
      (freshDirectory (inodeWithRecord (encodeExtent 0 0 5 1)))).1
      = InitOutcome.returned status_t.B_IO_ERROR ∧
    (Init (envWithRead true (fun _ => 100))
      (freshDirectory (inodeWithRecord (encodeExtent 0 0 5 1)))).2.fBlockBuffer ≠ none := by
  refine ⟨rfl, by decide, ?_⟩
  simp [Init, FillBlockBuffer, envWithRead, freshDirectory]
  decide


/-! ### `GetNext` -/

theorem EntrySize_pos (inode : Inode) (namelen : Nat) (h : namelen < 256) :
    0 < EntrySize inode namelen ∧ EntrySize inode namelen % 8 = 0 := by
  rw [EntrySize_eq inode namelen (by omega)]
  unfold fixedOverhead
  constructor <;> omega

theorem readBE64_some_readBE16 (buf : List Nat) (off v : Nat) (h : readBE64 buf off = some v) :
    ∃ t, readBE16 buf off = some t := by
  unfold readBE64 readBE32 at h
  cases h16 : readBE16 buf off with
  | none => simp [h16] at h
  | some t => exact ⟨t, rfl⟩

theorem expectedNext_nil (fOffset length : Nat) :
    expectedNext fOffset length []
      = ⟨status_t.B_ENTRY_NOT_FOUND, fOffset, none⟩ := by
  simp [expectedNext]

theorem expectedNext_skip (fOffset length : Nat) (e : LiveEntry) (rest : List LiveEntry)
    (h : e.offset ≤ fOffset) :
    expectedNext fOffset length (e :: rest) = expectedNext fOffset length rest := by
  have : ¬ fOffset < e.offset := by omega
  simp [expectedNext, List.find?, this]

theorem expectedNext_hit (fOffset length : Nat) (e : LiveEntry) (rest : List LiveEntry)
    (h : fOffset < e.offset) :
    expectedNext fOffset length (e :: rest)
      = if e.name.length ≥ length then
          ⟨status_t.B_BUFFER_OVERFLOW, fOffset, none⟩
        else ⟨status_t.B_OK, e.offset, some (e.name, e.inumber)⟩ := by
  simp [expectedNext, List.find?, h]

/-- The loop of `GetNext` over laid-out records: with one iteration per record
and one more, it ends with the first live entry behind the cursor. -/
theorem GetNextLoop_spec (inode : Inode) (buf : List Nat) (fOffset length : Nat)
    (numberOfEntries : Int) (limit : Nat) (hlimit : limit < 2 ^ 16) :
    ∀ (slots : List Slot) (off : Nat) (i : Int) (fuel : Nat),
      LaidOut inode buf limit off slots → off ≤ limit →
      i + ((liveEntriesFrom inode off slots).length : Int) = numberOfEntries →
      slots.length < fuel →
      GetNextLoop inode buf fOffset length numberOfEntries fuel i off off
        = Run.done (expectedNext fOffset length (liveEntriesFrom inode off slots)) := by
  intro slots
  induction slots with
  | nil =>
    intro off i fuel _ _ hcount hfuel
    obtain ⟨fuel, rfl⟩ : ∃ f, fuel = f + 1 := ⟨fuel - 1, by simp at hfuel; omega⟩
    simp only [liveEntriesFrom, List.length_nil] at hcount
    have hi : ¬ i < numberOfEntries := by omega
    simp [GetNextLoop, hi, liveEntriesFrom, expectedNext_nil]
  | cons slot rest ih =>
    intro off i fuel hlaid hoff hcount hfuel
    obtain ⟨fuel, rfl⟩ : ∃ f, fuel = f + 1 := ⟨fuel - 1, by simp at hfuel; omega⟩
    have hfuel2 : rest.length < fuel := by simp at hfuel; omega
    cases slot with
    | live inumber name =>
      obtain ⟨⟨htag, hino, hlen, hname, hshort⟩, hfit, hrest⟩ := hlaid
      simp only [slotSize] at hfit hrest
      simp only [liveEntriesFrom, List.length_cons] at hcount
      have hi : i < numberOfEntries := by push_cast at hcount; omega
      obtain ⟨tag, htag2⟩ := readBE64_some_readBE16 buf off inumber hino
      have htag3 : tag ≠ DIR2_FREE_TAG := by
        intro h
        rw [h] at htag2
        exact htag htag2
      have hmod : (off + EntrySize inode name.length) % 2 ^ 16
          = off + EntrySize inode name.length := Nat.mod_eq_of_lt (by omega)
      by_cases hcur : fOffset ≥ off
      · have hih := ih (off + EntrySize inode name.length) (i + 1) fuel hrest hfit
          (by push_cast at hcount ⊢; omega) hfuel2
        simp only [GetNextLoop, hi, if_true, htag2, htag3, if_false, hlen, hcur, hmod, hih,
          liveEntriesFrom]
        rw [expectedNext_skip]
        exact hcur
      · have hlt : fOffset < off := by omega
        simp only [GetNextLoop, hi, if_true, htag2, htag3, if_false, hlen, hcur, hname, hino,
          liveEntriesFrom]
        rw [expectedNext_hit _ _ _ _ hlt]
        by_cases hcap : name.length ≥ length
        · simp [hcap]
        · simp [hcap]
    | unused len =>
      obtain ⟨⟨htag, hlen, hpos, _⟩, hfit, hrest⟩ := hlaid
      simp only [slotSize] at hfit hrest
      simp only [liveEntriesFrom] at hcount ⊢
      by_cases hi : i < numberOfEntries
      · have hmod : (off + len) % 2 ^ 16 = off + len := Nat.mod_eq_of_lt (by omega)
        have hih := ih (off + len) i fuel hrest hfit hcount hfuel2
        have hi2 : i - 1 + 1 = i := by omega
        simp only [GetNextLoop, hi, if_true, htag, hlen, hmod, hi2, hih]
      · have hnil : liveEntriesFrom inode (off + len) rest = [] := by
          apply List.length_eq_zero.mp
          omega
        simp [GetNextLoop, hi, hnil, expectedNext_nil]

/-- One call of `GetNext` on a well-formed block: with one loop iteration per
record and one more, it returns what `expectedNext` describes. -/
theorem GetNext_spec (env : Env) (inode : Inode) (buf : List Nat) (slots : List Slot)
    (hwf : WellFormedBlock env inode buf slots) (dir : BlockDirectory)
    (hinode : dir.fInode = inode) (hbuf : dir.fBlockBuffer = some buf) (length fuel : Nat)
    (hfuel : slots.length < fuel) :
    GetNext env fuel dir length
      = Run.done (expectedNext dir.fOffset length (liveEntries env inode slots)) := by
  obtain ⟨_, ⟨k, hk, hpow⟩, _, _, _, count, hcount, stale, hstale, hle, hcount31, hfits, hlive,
    hlaid⟩ := hwf
  have hk16 : k ≤ 16 := by
    have := List.mem_range.mp hk
    omega
  have hbs : inode.DirBlockSize ≤ 2 ^ 16 := by
    rw [hpow]
    exact Nat.pow_le_pow_right (by norm_num) hk16
  simp only [Option.mem_def] at hcount hstale
  have htail : readBE32At buf (GetBlockTail inode) = some count := by
    unfold readBE32At GetBlockTail
    have h1 : ¬ ((inode.DirBlockSize : Int) - 8 < 0) := by omega
    have h2 : ((inode.DirBlockSize : Int) - 8).toNat = inode.DirBlockSize - 8 := by omega
    simp only [h1, if_false, h2, hcount]
  have htail4 : readBE32At buf (GetBlockTail inode + 4) = some stale := by
    unfold readBE32At GetBlockTail
    have h1 : ¬ ((inode.DirBlockSize : Int) - 8 + 4 < 0) := by omega
    have h2 : ((inode.DirBlockSize : Int) - 8 + 4).toNat = inode.DirBlockSize - 4 := by omega
    simp only [h1, if_false, h2, hstale]
  have hnum : wrapInt32 (toInt32 count - toInt32 stale)
      = (0 : Int) + (((liveEntriesFrom inode (DataHeader.Size env inode) slots).length : Nat) : Int) := by
    have hl : (liveEntriesFrom inode (DataHeader.Size env inode) slots).length = count - stale :=
      hlive.symm
    rw [hl]
    unfold wrapInt32 toInt32
    have hc : count % 2 ^ 32 = count := Nat.mod_eq_of_lt (by omega)
    have hs : stale % 2 ^ 32 = stale := Nat.mod_eq_of_lt (by omega)
    have hs31 : stale < 2 ^ 31 := by omega
    simp only [hc, hs, hcount31, hs31, if_true]
    omega
  have hmod : DataHeader.Size env inode % 2 ^ 16 = DataHeader.Size env inode :=
    Nat.mod_eq_of_lt (by omega)
  unfold GetNext
  simp only [hbuf, hinode, htail, htail4, hmod]
  rw [GetNextLoop_spec inode buf dir.fOffset length _
    (inode.DirBlockSize - 8 - 8 * count) (by omega) slots (DataHeader.Size env inode) 0 fuel
    hlaid (by omega) hnum.symm hfuel]
  rfl

theorem liveEntriesFrom_offset_ge (inode : Inode) (buf : List Nat) (limit : Nat) :
    ∀ (slots : List Slot) (off : Nat), LaidOut inode buf limit off slots →
      ∀ e ∈ liveEntriesFrom inode off slots, off ≤ e.offset := by
  intro slots
  induction slots with
  | nil =>
    intro off _ e he
    simp [liveEntriesFrom] at he
  | cons slot rest ih =>
    intro off hlaid e he
    cases slot with
    | live inumber name =>
      obtain ⟨_, _, hrest⟩ := hlaid
      simp only [slotSize] at hrest
      simp only [liveEntriesFrom, List.mem_cons] at he
      rcases he with he | he
      · rw [he]
      · have := ih _ hrest e he
        omega
    | unused len =>
      obtain ⟨_, _, hrest⟩ := hlaid
      simp only [slotSize] at hrest
      simp only [liveEntriesFrom] at he
      have := ih _ hrest e he
      omega

/-- The live entries of laid-out records come in strictly increasing offsets. -/
theorem liveEntriesFrom_increasing (inode : Inode) (buf : List Nat) (limit : Nat) :
    ∀ (slots : List Slot) (off : Nat), LaidOut inode buf limit off slots →
      ((liveEntriesFrom inode off slots).map LiveEntry.offset).Pairwise (fun a b => a < b) := by
  intro slots
  induction slots with
  | nil =>
    intro off _
    simp [liveEntriesFrom]
  | cons slot rest ih =>
    intro off hlaid
    cases slot with
    | live inumber name =>
      obtain ⟨⟨_, _, _, _, hshort⟩, _, hrest⟩ := hlaid
      simp only [slotSize] at hrest
      simp only [liveEntriesFrom, List.map_cons, List.pairwise_cons]
      refine ⟨?_, ih _ hrest⟩
      intro b hb
      obtain ⟨e, he, rfl⟩ := List.mem_map.mp hb
      have hge := liveEntriesFrom_offset_ge inode buf limit rest _ hrest e he
      have hpos := (EntrySize_pos inode name.length hshort).1
      omega
    | unused len =>
      obtain ⟨_, _, hrest⟩ := hlaid
      simp only [slotSize] at hrest
      simp only [liveEntriesFrom]
      exact ih _ hrest

theorem expectedNext_append (fOffset length : Nat) (suf : List LiveEntry) :
    ∀ pre : List LiveEntry, (∀ e ∈ pre, e.offset ≤ fOffset) →
      expectedNext fOffset length (pre ++ suf) = expectedNext fOffset length suf := by
  intro pre
  induction pre with
  | nil => intro _; rfl
  | cons e rest ih =>
    intro h
    rw [List.cons_append, expectedNext_skip _ _ _ _ (h e (List.mem_cons_self _ _))]
    exact ih (fun x hx => h x (List.mem_cons_of_mem _ hx))

/-- Behind the last live entry every call of `GetNext` reports the end of the
directory and leaves the cursor where it is. -/
theorem GetNextCalls_at_end (env : Env) (inode : Inode) (buf : List Nat) (slots : List Slot)
    (hwf : WellFormedBlock env inode buf slots) (length fuel : Nat)
    (hfuel : slots.length < fuel) :
    ∀ (extra : Nat) (dir : BlockDirectory), dir.fInode = inode → dir.fBlockBuffer = some buf →
      (∀ e ∈ liveEntries env inode slots, e.offset ≤ dir.fOffset) →
      GetNextCalls env fuel length extra dir
        = List.replicate extra (Run.done ⟨status_t.B_ENTRY_NOT_FOUND, dir.fOffset, none⟩) := by
  intro extra
  induction extra with
  | zero => intro dir _ _ _; rfl
  | succ n ih =>
    intro dir hinode hbuf hall
    have hcall := GetNext_spec env inode buf slots hwf dir hinode hbuf length fuel hfuel
    have hexp := expectedNext_append dir.fOffset length [] (liveEntries env inode slots) hall
    rw [List.append_nil, expectedNext_nil] at hexp
    rw [hexp] at hcall
    simp only [GetNextCalls, hcall, List.replicate_succ]
    rw [ih (afterGetNext dir ⟨status_t.B_ENTRY_NOT_FOUND, dir.fOffset, none⟩) hinode hbuf hall]
    rfl

/-- From a cursor that separates the live entries into those at or before it
and those behind it, successive calls of `GetNext` return the entries behind
it in order and then report the end of the directory. -/
theorem GetNextCalls_from (env : Env) (inode : Inode) (buf : List Nat) (slots : List Slot)
    (hwf : WellFormedBlock env inode buf slots) (length fuel : Nat)
    (hfuel : slots.length < fuel) (extra : Nat) :
    ∀ (suf pre : List LiveEntry) (dir : BlockDirectory),
      liveEntries env inode slots = pre ++ suf →
      dir.fInode = inode → dir.fBlockBuffer = some buf →
      (∀ e ∈ pre, e.offset ≤ dir.fOffset) → (∀ e ∈ suf, dir.fOffset < e.offset) →
      (suf.map LiveEntry.offset).Pairwise (fun a b => a < b) →
      (∀ e ∈ suf, e.name.length < length) →
      ∃ cursor, GetNextCalls env fuel length (suf.length + extra) dir
        = suf.map (fun e => Run.done ⟨status_t.B_OK, e.offset, some (e.name, e.inumber)⟩)
          ++ List.replicate extra (Run.done ⟨status_t.B_ENTRY_NOT_FOUND, cursor, none⟩) := by
  intro suf
  induction suf with
  | nil =>
    intro pre dir hsplit hinode hbuf hpre _ _ _
    refine ⟨dir.fOffset, ?_⟩
    rw [List.append_nil] at hsplit
    simp only [List.length_nil, Nat.zero_add, List.map_nil, List.nil_append]
    exact GetNextCalls_at_end env inode buf slots hwf length fuel hfuel extra dir hinode hbuf
      (by rw [hsplit]; exact hpre)
  | cons e rest ih =>
    intro pre dir hsplit hinode hbuf hpre hsuf hinc hcap
    have hcall := GetNext_spec env inode buf slots hwf dir hinode hbuf length fuel hfuel
    rw [hsplit, expectedNext_append _ _ _ pre hpre,
      expectedNext_hit _ _ _ _ (hsuf e (List.mem_cons_self _ _))] at hcall
    have hfit : ¬ e.name.length ≥ length := by
      have := hcap e (List.mem_cons_self _ _)
      omega
    simp only [hfit, if_false] at hcall
    simp only [List.map_cons, List.pairwise_cons] at hinc
    obtain ⟨cursor, hrest⟩ := ih (pre ++ [e])
      (afterGetNext dir ⟨status_t.B_OK, e.offset, some (e.name, e.inumber)⟩)
      (by rw [hsplit, List.append_assoc]; rfl) hinode hbuf
      (by
        intro x hx
        rcases List.mem_append.mp hx with hx | hx
        · have h1 := hpre x hx
          have h2 := hsuf e (List.mem_cons_self _ _)
          simp only [afterGetNext]
          omega
        · simp only [List.mem_singleton] at hx
          rw [hx]
          exact le_refl _)
      (by
        intro x hx
        exact hinc.1 x.offset (List.mem_map_of_mem _ hx))
      hinc.2
      (fun x hx => hcap x (List.mem_cons_of_mem _ hx))
    refine ⟨cursor, ?_⟩
    have hlen : (e :: rest).length + extra = (rest.length + extra) + 1 := by
      simp only [List.length_cons]
      omega
    rw [hlen]
    simp only [GetNextCalls, hcall, hrest, List.map_cons, List.cons_append]

/-- C3: for a well-formed single-block directory buffer and any prior cursor,
`Rewind` followed by calls of `GetNext` with a capacity above every name
length (and one loop iteration per record and one more) returns `B_OK` for
each of the `count - stale` live entries, with its name and inode number, in
strictly increasing on-disk offset order, the cursor standing at the entry
returned; every later call returns `B_ENTRY_NOT_FOUND`. -/
theorem GetNext_enumerates (env : Env) (inode : Inode) (buf : List Nat) (slots : List Slot)
    (hwf : WellFormedBlock env inode buf slots) (dir : BlockDirectory)
    (hinode : dir.fInode = inode) (hbuf : dir.fBlockBuffer = some buf) (length : Nat)
    (hlength : ∀ e ∈ liveEntries env inode slots, e.name.length < length) (fuel : Nat)
    (hfuel : slots.length < fuel) (extra : Nat) :
    (∃ count ∈ readBE32 buf (inode.DirBlockSize - 8),
      ∃ stale ∈ readBE32 buf (inode.DirBlockSize - 4),
        (liveEntries env inode slots).length = count - stale) ∧
    ((liveEntries env inode slots).map LiveEntry.offset).Pairwise (fun a b => a < b) ∧
    ∃ cursor,
      GetNextCalls env fuel length ((liveEntries env inode slots).length + extra) (Rewind dir).2
        = (liveEntries env inode slots).map (fun e => Run.done ⟨status_t.B_OK, e.offset, some (e.name, e.inumber)⟩)
          ++ List.replicate extra (Run.done ⟨status_t.B_ENTRY_NOT_FOUND, cursor, none⟩) := by
  have hwf2 := hwf
  obtain ⟨_, _, _, hpos, _, count, hcount, stale, hstale, _, _, _, hlive, hlaid⟩ := hwf2
  have hinc := liveEntriesFrom_increasing inode buf _ slots _ hlaid
  refine ⟨⟨count, hcount, stale, hstale, hlive.symm⟩, hinc, ?_⟩
  apply GetNextCalls_from env inode buf slots hwf length fuel hfuel extra
    (liveEntries env inode slots) [] (Rewind dir).2 rfl hinode hbuf
  · intro e he
    simp at he
  · intro e he
    have := liveEntriesFrom_offset_ge inode buf _ slots _ hlaid e he
    simp only [Rewind]
    omega
  · exact hinc
  · exact hlength

set_option maxRecDepth 100000 in
/-- C3 (witness): the block of the scenario (`count = 3`, `stale = 1`, live
entries `"a"` with inode 10 and `"bb"` with inode 20), entered with the cursor
at 77: after `Rewind`, three calls of `GetNext` give `("a", 10)`, `("bb", 20)`
and `B_ENTRY_NOT_FOUND`. -/
theorem GetNext_enumerates_witness :
    WellFormedBlock smallEnv smallInode scenarioBlock scenarioSlots ∧
    GetNextCalls smallEnv 5 256 3 (Rewind (loadedDirectory scenarioBlock 77)).2
      = [Run.done ⟨status_t.B_OK, 16, some ([0x61], 10)⟩,
         Run.done ⟨status_t.B_OK, 48, some ([0x62, 0x62], 20)⟩,
         Run.done ⟨status_t.B_ENTRY_NOT_FOUND, 48, none⟩] ∧
    ∃ cursor,
      GetNextCalls smallEnv 5 256 ((liveEntries smallEnv smallInode scenarioSlots).length + 1)
          (Rewind (loadedDirectory scenarioBlock 77)).2
        = (liveEntries smallEnv smallInode scenarioSlots).map
            (fun e => Run.done ⟨status_t.B_OK, e.offset, some (e.name, e.inumber)⟩)
          ++ List.replicate 1 (Run.done ⟨status_t.B_ENTRY_NOT_FOUND, cursor, none⟩) :=
  ⟨by decide, by decide,
    (GetNext_enumerates smallEnv smallInode scenarioBlock scenarioSlots (by decide)
      (loadedDirectory scenarioBlock 77) rfl rfl 256 (by decide) 5 (by decide) 1).2.2⟩

/-- C4: on a well-formed block, at a cursor behind which a live entry `e`
comes next, `GetNext` with a capacity smaller than the length of the name of
`e` returns `B_BUFFER_OVERFLOW` and leaves the cursor as it is, and the call
that follows with a capacity above the name length returns `e`: `B_OK` with
its name and inode number. -/
theorem GetNext_buffer_too_small (env : Env) (inode : Inode) (buf : List Nat)
    (slots : List Slot) (hwf : WellFormedBlock env inode buf slots) (dir : BlockDirectory)
    (hinode : dir.fInode = inode) (hbuf : dir.fBlockBuffer = some buf) (e : LiveEntry)
    (hnext : (liveEntries env inode slots).find? (fun x => decide (dir.fOffset < x.offset))
      = some e)
    (small : Nat) (hsmall : small < e.name.length) (adequate : Nat)
    (hadequate : e.name.length < adequate) (fuel : Nat) (hfuel : slots.length < fuel) :
    GetNext env fuel dir small
      = Run.done ⟨status_t.B_BUFFER_OVERFLOW, dir.fOffset, none⟩ ∧
    (afterGetNext dir ⟨status_t.B_BUFFER_OVERFLOW, dir.fOffset, none⟩).fOffset = dir.fOffset ∧
    GetNext env fuel (afterGetNext dir ⟨status_t.B_BUFFER_OVERFLOW, dir.fOffset, none⟩) adequate
      = Run.done ⟨status_t.B_OK, e.offset, some (e.name, e.inumber)⟩ := by
  have h1 := GetNext_spec env inode buf slots hwf dir hinode hbuf small fuel hfuel
  have h2 := GetNext_spec env inode buf slots hwf
    (afterGetNext dir ⟨status_t.B_BUFFER_OVERFLOW, dir.fOffset, none⟩) hinode hbuf adequate fuel hfuel
  have hs : e.name.length ≥ small := by omega
  have ha : ¬ e.name.length ≥ adequate := by omega
  refine ⟨?_, rfl, ?_⟩
  · rw [h1]
    simp only [expectedNext, hnext, hs, if_true]
  · rw [h2]
    simp only [afterGetNext, expectedNext, hnext, ha, if_false]

set_option maxRecDepth 100000 in
/-- C4 (witness): the block of the scenario with the cursor at 16, the offset
of `"a"`; the next entry is `"bb"`, refused with capacity 1 and returned with
capacity 3. -/
theorem GetNext_buffer_too_small_witness :
    GetNext smallEnv 5 (loadedDirectory scenarioBlock 16) 1
      = Run.done ⟨status_t.B_BUFFER_OVERFLOW, 16, none⟩ ∧
    (afterGetNext (loadedDirectory scenarioBlock 16) ⟨status_t.B_BUFFER_OVERFLOW, 16, none⟩).fOffset = 16 ∧
    GetNext smallEnv 5 (afterGetNext (loadedDirectory scenarioBlock 16)
        ⟨status_t.B_BUFFER_OVERFLOW, 16, none⟩) 3
      = Run.done ⟨status_t.B_OK, 48, some ([0x62, 0x62], 20)⟩ :=
  GetNext_buffer_too_small smallEnv smallInode scenarioBlock scenarioSlots (by decide)
    (loadedDirectory scenarioBlock 16) rfl rfl { offset := 48, name := [0x62, 0x62], inumber := 20 }
    (by decide) 1 (by decide) 3 (by decide) 5 (by decide)

/-! ### `Lookup` -/

theorem LeavesAt_read (buf : List Nat) :
    ∀ (leaves : List (Nat × Nat)) (off i : Nat) (leaf : Nat × Nat),
      LeavesAt buf off leaves → leaves[i]? = some leaf →
      readBE32 buf (off + 8 * i) = some leaf.1 ∧ readBE32 buf (off + 8 * i + 4) = some leaf.2 := by
  intro leaves
  induction leaves with
  | nil =>
    intro off i leaf _ h
    simp at h
  | cons first rest ih =>
    intro off i leaf hat h
    obtain ⟨h1, h2, hrest⟩ := hat
    cases i with
    | zero =>
      simp only [List.getElem?_cons_zero, Option.some.injEq] at h
      subst h
      exact ⟨h1, h2⟩
    | succ j =>
      simp only [List.getElem?_cons_succ] at h
      have := ih (off + 8) j leaf hrest h
      have e : off + 8 * (j + 1) = off + 8 + 8 * j := by omega
      rw [e]
      exact this

theorem readBE32At_cast (buf : List Nat) (off : Nat) :
    readBE32At buf (off : Int) = readBE32 buf off := by
  unfold readBE32At
  have h1 : ¬ ((off : Int) < 0) := by omega
  simp [h1]

theorem tdiv_two_cast (a b : Nat) : ((a : Int) + (b : Int)).tdiv 2 = (((a + b) / 2 : Nat) : Int) := by
  rw [Int.tdiv_eq_ediv (by omega) (by omega)]
  omega

/-- The binary search over a readable ascending array ends at the first index
of the range whose hash value is not below the target. -/
theorem hashLowerBound_spec (buf : List Nat) (leafEntry : Int) (target : Nat)
    (hv : Nat → Nat) (n : Nat)
    (hread : ∀ i, i < n → leafHashval buf leafEntry (i : Int) = some (hv i))
    (hsorted : ∀ i j, i ≤ j → j < n → hv i ≤ hv j) :
    ∀ (fuel left right : Nat), left ≤ right → right < n → right - left < fuel →
      (∀ j, j < left → hv j < target) → target ≤ hv right →
      ∃ lb : Nat, hashLowerBound buf leafEntry target fuel (left : Int) (right : Int)
          = Run.done ((lb : Int), (lb : Int)) ∧
        left ≤ lb ∧ lb ≤ right ∧ (∀ j, j < lb → hv j < target) ∧ target ≤ hv lb := by
  intro fuel
  induction fuel with
  | zero =>
    intro left right _ _ hfuel
    omega
  | succ fuel ih =>
    intro left right hle hright hfuel hbelow habove
    by_cases hlt : left < right
    · have hlt2 : (left : Int) < (right : Int) := by omega
      have hmid : (left + right) / 2 < n := by omega
      simp only [hashLowerBound, hlt2, if_true, tdiv_two_cast, hread _ hmid]
      by_cases hge : hv ((left + right) / 2) ≥ target
      · simp only [hge, if_true]
        obtain ⟨lb, h1, h2, h3, h4, h5⟩ := ih left ((left + right) / 2) (by omega) hmid
          (by omega) hbelow hge
        exact ⟨lb, h1, h2, by omega, h4, h5⟩
      · simp only [hge, if_false]
        have hcast : (((left + right) / 2 : Nat) : Int) + 1 = (((left + right) / 2 + 1 : Nat) : Int) := by
          push_cast
          rfl
        rw [hcast]
        obtain ⟨lb, h1, h2, h3, h4, h5⟩ := ih ((left + right) / 2 + 1) right (by omega) hright
          (by omega)
          (by
            intro j hj
            have := hsorted j ((left + right) / 2) (by omega) hmid
            omega)
          habove
        exact ⟨lb, h1, by omega, h3, h4, h5⟩
    · have heq : left = right := by omega
      have hlt2 : ¬ ((left : Int) < (right : Int)) := by omega
      simp only [hashLowerBound, hlt2, if_false]
      subst heq
      exact ⟨left, rfl, le_refl _, le_refl _, hbelow, habove⟩


theorem liveEntriesFrom_slotAt (inode : Inode) (buf : List Nat) (limit : Nat) :
    ∀ (slots : List Slot) (off : Nat), LaidOut inode buf limit off slots →
      ∀ e ∈ liveEntriesFrom inode off slots,
        SlotAt buf e.offset (Slot.live e.inumber e.name) ∧
        e.offset + EntrySize inode e.name.length ≤ limit := by
  intro slots
  induction slots with
  | nil =>
    intro off _ e he
    simp [liveEntriesFrom] at he
  | cons slot rest ih =>
    intro off hlaid e he
    cases slot with
    | live inumber name =>
      obtain ⟨hslot, hfit, hrest⟩ := hlaid
      simp only [slotSize] at hrest hfit
      simp only [liveEntriesFrom, List.mem_cons] at he
      rcases he with he | he
      · rw [he]
        exact ⟨hslot, hfit⟩
      · exact ih _ hrest e he
    | unused len =>
      obtain ⟨_, _, hrest⟩ := hlaid
      simp only [slotSize] at hrest
      simp only [liveEntriesFrom] at he
      exact ih _ hrest e he

theorem liveEntriesFrom_offset_mod8 (inode : Inode) (buf : List Nat) (limit : Nat) :
    ∀ (slots : List Slot) (off : Nat), LaidOut inode buf limit off slots → off % 8 = 0 →
      ∀ e ∈ liveEntriesFrom inode off slots, e.offset % 8 = 0 := by
  intro slots
  induction slots with
  | nil =>
    intro off _ _ e he
    simp [liveEntriesFrom] at he
  | cons slot rest ih =>
    intro off hlaid hoff e he
    cases slot with
    | live inumber name =>
      obtain ⟨⟨_, _, _, _, hshort⟩, _, hrest⟩ := hlaid
      simp only [slotSize] at hrest
      simp only [liveEntriesFrom, List.mem_cons] at he
      rcases he with he | he
      · rw [he]
        exact hoff
      · have := (EntrySize_pos inode name.length hshort).2
        exact ih _ hrest (by omega) e he
    | unused len =>
      obtain ⟨⟨_, _, _, hmul⟩, _, hrest⟩ := hlaid
      simp only [slotSize] at hrest
      simp only [liveEntriesFrom] at he
      exact ih _ hrest (by omega) e he

/-- The comparison of a requested name with the live entry at `off` reads
inside the buffer and succeeds exactly when the two names are equal. -/
theorem name_comp_at (buf : List Nat) (off inumber : Nat) (stored name : List Nat)
    (h : SlotAt buf off (Slot.live inumber stored)) :
    ¬ (name.length = stored.length ∧ buf.length < off + 9 + name.length) ∧
    (xfs_da_name_comp name name.length (buf.drop (off + 9)) stored.length = true
      ↔ name = stored) := by
  obtain ⟨_, _, _, hbytes, _⟩ := h
  unfold readBytes at hbytes
  by_cases hin : off + 9 + stored.length ≤ buf.length
  · simp only [hin, if_true, Option.some.injEq] at hbytes
    constructor
    · rintro ⟨h1, h2⟩
      omega
    · unfold xfs_da_name_comp
      by_cases hlen : name.length = stored.length
      · simp only [hlen, beq_self_eq_true, Bool.true_and, hbytes, beq_iff_eq]
        rw [← hlen, List.take_length]
      · simp only [Bool.and_eq_true, beq_iff_eq, hlen, false_and, false_iff]
        intro heq
        exact hlen (by rw [heq])
  · simp [hin] at hbytes

theorem slotAt_name_unique (buf : List Nat) (off i1 i2 : Nat) (n1 n2 : List Nat)
    (h1 : SlotAt buf off (Slot.live i1 n1)) (h2 : SlotAt buf off (Slot.live i2 n2)) :
    n1 = n2 ∧ i1 = i2 := by
  obtain ⟨_, hi1, hl1, hb1, _⟩ := h1
  obtain ⟨_, hi2, hl2, hb2, _⟩ := h2
  rw [hl1] at hl2
  rw [hi1] at hi2
  simp only [Option.some.injEq] at hl2 hi2
  rw [hl2, hb2] at hb1
  simp only [Option.some.injEq] at hb1
  exact ⟨hb1.symm, hi2⟩

/-- The scan of `Lookup` from an index at or before the leaf entry of the
requested name, through leaf entries that all carry the requested hash,
returns the inode number of the entry with that name. -/
theorem LookupLoop_finds (inode : Inode) (buf : List Nat) (target : Nat) (leafEntry : Int)
    (hv ad : Nat → Nat) (n t : Nat) (ht : t < n)
    (hreadh : ∀ i, i < n → leafHashval buf leafEntry (i : Int) = some (hv i))
    (hreada : ∀ i, i < n → leafAddress buf leafEntry (i : Int) = some (ad i))
    (lives : List LiveEntry)
    (hlives : ∀ x ∈ lives, SlotAt buf x.offset (Slot.live x.inumber x.name))
    (hnodup : (lives.map LiveEntry.name).Nodup) (e : LiveEntry) (he : e ∈ lives)
    (haddr : ad t ≠ 0) (hoff : GetOffsetFromAddress inode (ad t) = e.offset)
    (hpoint : ∀ j, j < n → ad j = 0 ∨
      ∃ x ∈ lives, GetOffsetFromAddress inode (ad j) = x.offset) :
    ∀ (fuel left : Nat), left ≤ t → t - left < fuel →
      (∀ j, left ≤ j → j ≤ t → hv j = target) →
      LookupLoop inode buf e.name e.name.length target leafEntry fuel (left : Int)
        = Run.done ⟨status_t.B_OK, some e.inumber⟩ := by
  intro fuel
  induction fuel with
  | zero =>
    intro left _ hfuel
    omega
  | succ fuel ih =>
    intro left hle hfuel hrun
    have hleft : left < n := by omega
    have hcast : (left : Int) + 1 = ((left + 1 : Nat) : Int) := by push_cast; rfl
    simp only [LookupLoop, hreadh left hleft, hrun left (le_refl _) hle, if_true,
      hreada left hleft]
    by_cases hzero : ad left = 0
    · have hne : left ≠ t := by
        intro h
        rw [h] at hzero
        exact haddr hzero
      simp only [hzero, if_true, hcast]
      exact ih (left + 1) (by omega) (by omega) (fun j h1 h2 => hrun j (by omega) h2)
    · simp only [hzero, if_false]
      rcases hpoint left hleft with h0 | ⟨x, hx, hxoff⟩
      · exact absurd h0 hzero
      · have hslot := hlives x hx
        obtain ⟨hnoob, hcomp⟩ := name_comp_at buf x.offset x.inumber x.name e.name hslot
        rw [hxoff, hslot.2.2.1]
        simp only [hnoob, if_false]
        by_cases hsame : e.name = x.name
        · have hxe : x = e := List.inj_on_of_nodup_map hnodup hx he hsame.symm
          subst hxe
          simp only [hcomp.mpr rfl, if_true, hslot.2.1]
        · have hfalse : xfs_da_name_comp e.name e.name.length (buf.drop (x.offset + 9))
              x.name.length = false := by
            cases hc : xfs_da_name_comp e.name e.name.length (buf.drop (x.offset + 9))
              x.name.length with
            | false => rfl
            | true => exact absurd (hcomp.mp hc) hsame
          have hne : left ≠ t := by
            intro h
            rw [h, hoff] at hxoff
            have hs2 := hlives e he
            rw [hxoff] at hs2
            exact hsame (slotAt_name_unique buf x.offset _ _ _ _ hs2 hslot).1
          simp only [hfalse, Bool.false_eq_true, if_false, hcast]
          exact ih (left + 1) (by omega) (by omega) (fun j h1 h2 => hrun j (by omega) h2)


theorem GetOffsetFromAddress_decode (inode : Inode) (k : Nat) (hk : k ≤ 16)
    (hpow : inode.DirBlockSize = 2 ^ k) (off : Nat) (hoff : off < inode.DirBlockSize)
    (h8 : off % 8 = 0) : GetOffsetFromAddress inode (off / 8) = off := by
  unfold GetOffsetFromAddress
  have hbs : inode.DirBlockSize ≤ 2 ^ 16 := by
    rw [hpow]
    exact Nat.pow_le_pow_right (by norm_num) hk
  have h1 : off / 8 * 8 % 2 ^ 32 = off := by omega
  simp only [h1]
  rw [hpow, Nat.and_pow_two_sub_one_eq_mod]
  exact Nat.mod_eq_of_lt (by rw [← hpow]; exact hoff)

/-- C6: on a well-formed block with a well-formed leaf array, for a live entry
whose leaf entry (the hash of its name, its offset divided by 8) is in the
leaf array, `Lookup` of its name returns `B_OK` with its inode number, whatever
other leaf entries carry the same hash value. -/
theorem Lookup_finds (env : Env) (inode : Inode) (buf : List Nat) (slots : List Slot)
    (leaves : List (Nat × Nat)) (hwf : WellFormedBlock env inode buf slots)
    (hleaves : WellFormedLeaves env inode buf slots leaves) (dir : BlockDirectory)
    (hinode : dir.fInode = inode) (hbuf : dir.fBlockBuffer = some buf) (e : LiveEntry)
    (he : e ∈ liveEntries env inode slots)
    (hleaf : (env.hashfunction e.name e.name.length % 2 ^ 32, e.offset / 8) ∈ leaves)
    (fuel : Nat) (hfuel : leaves.length < fuel) :
    Lookup env fuel dir e.name e.name.length = Run.done ⟨status_t.B_OK, some e.inumber⟩ := by
  obtain ⟨_, ⟨k, hk, hpow⟩, _, hpos, hmul, count, hcount, stale, _, _, hcount31, hfits, _,
    hlaid⟩ := hwf
  obtain ⟨hn, hat, hsorted, hpoint, hnodup⟩ := hleaves
  simp only [Option.mem_def] at hcount
  have hcn : count = leaves.length := by
    rw [hcount] at hn
    exact Option.some.inj hn
  subst hcn
  have hk16 : k ≤ 16 := by
    have := List.mem_range.mp hk
    omega
  obtain ⟨t, hget⟩ := List.mem_iff_getElem?.mp hleaf
  have ht : t < leaves.length := by
    obtain ⟨h, _⟩ := List.getElem?_eq_some.mp hget
    exact h
  -- the live entry in the buffer
  have hslots := liveEntriesFrom_slotAt inode buf _ slots _ hlaid
  have hge := liveEntriesFrom_offset_ge inode buf _ slots _ hlaid e he
  have hmod := liveEntriesFrom_offset_mod8 inode buf _ slots _ hlaid hmul e he
  have hin := (hslots e he).2
  have hshort := (hslots e he).1.2.2.2.2
  have hsize := (EntrySize_pos inode e.name.length hshort).1
  have hdecode := GetOffsetFromAddress_decode inode k hk16 hpow e.offset (by omega) hmod
  -- the leaf array as functions of the index
  have hbase : BlockFirstLeaf (GetBlockTail inode) leaves.length
      = ((inode.DirBlockSize - 8 - 8 * leaves.length : Nat) : Int) := by
    unfold BlockFirstLeaf GetBlockTail
    omega
  have hreadh : ∀ i, i < leaves.length →
      leafHashval buf (BlockFirstLeaf (GetBlockTail inode) leaves.length) (i : Int)
        = some ((leaves[i]?).getD (0, 0)).1 := by
    intro i hi
    have hcast : ((inode.DirBlockSize - 8 - 8 * leaves.length : Nat) : Int) + 8 * (i : Int)
        = ((inode.DirBlockSize - 8 - 8 * leaves.length + 8 * i : Nat) : Int) := by
      push_cast
      rfl
    rw [hbase, leafHashval, hcast, readBE32At_cast]
    have hsome : leaves[i]? = some ((leaves[i]?).getD (0, 0)) := by
      rw [List.getElem?_eq_getElem hi]
      rfl
    exact (LeavesAt_read buf leaves _ i _ hat hsome).1
  have hreada : ∀ i, i < leaves.length →
      leafAddress buf (BlockFirstLeaf (GetBlockTail inode) leaves.length) (i : Int)
        = some ((leaves[i]?).getD (0, 0)).2 := by
    intro i hi
    have hcast : ((inode.DirBlockSize - 8 - 8 * leaves.length : Nat) : Int) + 8 * (i : Int) + 4
        = ((inode.DirBlockSize - 8 - 8 * leaves.length + 8 * i + 4 : Nat) : Int) := by
      push_cast
      rfl
    rw [hbase, leafAddress, hcast, readBE32At_cast]
    have hsome : leaves[i]? = some ((leaves[i]?).getD (0, 0)) := by
      rw [List.getElem?_eq_getElem hi]
      rfl
    exact (LeavesAt_read buf leaves _ i _ hat hsome).2
  have hmono : ∀ i j, i ≤ j → j < leaves.length →
      ((leaves[i]?).getD (0, 0)).1 ≤ ((leaves[j]?).getD (0, 0)).1 := by
    intro i j hij hj
    rcases Nat.eq_or_lt_of_le hij with heq | hlt
    · rw [heq]
    · have hi : i < leaves.length := by omega
      have hp := List.pairwise_iff_getElem.mp hsorted i j (by simpa using hi) (by simpa using hj) hlt
      simpa [List.getElem?_eq_getElem hi, List.getElem?_eq_getElem hj] using hp
  have hpoint2 : ∀ j, j < leaves.length → ((leaves[j]?).getD (0, 0)).2 = 0 ∨
      ∃ x ∈ liveEntries env inode slots,
        GetOffsetFromAddress inode ((leaves[j]?).getD (0, 0)).2 = x.offset := by
    intro j hj
    have hmem : (leaves[j]?).getD (0, 0) ∈ leaves := by
      rw [List.getElem?_eq_getElem hj]
      exact List.getElem_mem hj
    exact hpoint _ hmem
  have htv : ((leaves[t]?).getD (0, 0)) = (env.hashfunction e.name e.name.length % 2 ^ 32,
      e.offset / 8) := by
    rw [hget]
    rfl
  have hlast : env.hashfunction e.name e.name.length % 2 ^ 32
      ≤ ((leaves[leaves.length - 1]?).getD (0, 0)).1 := by
    have := hmono t (leaves.length - 1) (by omega) (by omega)
    rw [htv] at this
    exact this
  obtain ⟨lb, hlb, _, hlb2, hbelow, habove⟩ := hashLowerBound_spec buf
    (BlockFirstLeaf (GetBlockTail inode) leaves.length)
    (env.hashfunction e.name e.name.length % 2 ^ 32)
    (fun i => ((leaves[i]?).getD (0, 0)).1) leaves.length hreadh hmono fuel 0
    (leaves.length - 1) (Nat.zero_le _) (by omega) (by omega) (fun j hj => by omega) hlast
  have hlbt : lb ≤ t := by
    by_contra hcon
    have := hbelow t (by omega)
    simp only [htv] at this
    omega
  have hscan := LookupLoop_finds inode buf (env.hashfunction e.name e.name.length % 2 ^ 32)
    (BlockFirstLeaf (GetBlockTail inode) leaves.length)
    (fun i => ((leaves[i]?).getD (0, 0)).1) (fun i => ((leaves[i]?).getD (0, 0)).2)
    leaves.length t ht hreadh hreada (liveEntries env inode slots)
    (fun x hx => (hslots x hx).1) hnodup e he
    (by
      simp only [htv]
      omega)
    (by
      simp only [htv]
      exact hdecode)
    hpoint2 fuel lb hlbt (by omega)
    (by
      intro j h1 h2
      have a1 := hmono lb j h1 (by omega)
      have a2 := hmono j t h2 ht
      rw [htv] at a2
      simp only at habove a1 a2 ⊢
      omega)
  have htail : readBE32At buf (GetBlockTail inode) = some leaves.length := by
    unfold readBE32At GetBlockTail
    have h1 : ¬ ((inode.DirBlockSize : Int) - 8 < 0) := by omega
    have h2 : ((inode.DirBlockSize : Int) - 8).toNat = inode.DirBlockSize - 8 := by omega
    simp only [h1, if_false, h2, hcount]
  have hright : toInt32 leaves.length - 1 = ((leaves.length - 1 : Nat) : Int) := by
    unfold toInt32
    have hc : leaves.length % 2 ^ 32 = leaves.length := Nat.mod_eq_of_lt (by omega)
    simp only [hc, hcount31, if_true]
    omega
  unfold Lookup
  simp only [hbuf, hinode, htail, hright]
  have hzero : (0 : Int) = ((0 : Nat) : Int) := rfl
  rw [hzero, hlb]
  exact hscan


set_option maxRecDepth 100000 in
/-- C6 (witness): in the block whose three leaf entries carry the same hash
value, `Lookup` of `[0x63, 0x81]` passes the empty slot and the entry
`[0x62, 0x01]` and returns inode 40. -/
theorem Lookup_finds_witness :
    Lookup smallEnv 4 (loadedDirectory collisionBlock 0) [0x63, 0x81] 2
      = Run.done ⟨status_t.B_OK, some 40⟩ :=
  Lookup_finds smallEnv smallInode collisionBlock collisionSlots collisionLeaves (by decide)
    (by decide) (loadedDirectory collisionBlock 0) rfl rfl
    { offset := 32, name := [0x63, 0x81], inumber := 40 } (by decide) (by decide) 4 (by decide)

set_option maxRecDepth 100000 in
/-- The lookups of the scenario: `"a"` gives inode 10, `"z"` is not found; and in
the block with three equal hash values the absent name `[0x01, 0xe2, 0x01]`
of the same hash value is not found. -/
theorem Lookup_examples :
    Lookup smallEnv 4 (loadedDirectory scenarioBlock 0) [0x61] 1
      = Run.done ⟨status_t.B_OK, some 10⟩ ∧
    Lookup smallEnv 4 (loadedDirectory scenarioBlock 0) [0x7a] 1
      = Run.done ⟨status_t.B_ENTRY_NOT_FOUND, none⟩ ∧
    hashfunction [0x01, 0xe2, 0x01] 3 = 0x3101 ∧
    Lookup smallEnv 4 (loadedDirectory collisionBlock 0) [0x01, 0xe2, 0x01] 3
      = Run.done ⟨status_t.B_ENTRY_NOT_FOUND, none⟩ := by
  decide

set_option maxRecDepth 100000 in
theorem Lookup_tombstone_run (fuel : Nat) :
    Lookup smallEnv (fuel + 4) (loadedDirectory tombstoneBlock 0) [3] 1
      = Run.done ⟨status_t.B_OK, some 0xffff001000000007⟩ := by
  rfl

set_option maxRecDepth 100000 in
/-- C5 (the code at the failing input): the block `tombstoneBlock` is well
formed, its leaf array is well formed, and `[3]` is not the name of any of its
live entries; yet `Lookup` of `[3]`, whose hash value 3 equals `count`, runs
past the last leaf entry, takes the tail for a leaf entry with hash value 3
and address `stale = 2`, and returns `B_OK` with the first eight bytes of the
unused entry at offset 16 as inode number. -/
theorem Lookup_removed_name_returns_ok :
    WellFormedBlock smallEnv smallInode tombstoneBlock tombstoneSlots ∧
    WellFormedLeaves smallEnv smallInode tombstoneBlock tombstoneSlots tombstoneLeaves ∧
    (∀ e ∈ liveEntries smallEnv smallInode tombstoneSlots, e.name ≠ [3]) ∧
    smallEnv.hashfunction [3] 1 = 3 ∧
    ∀ fuel, 4 ≤ fuel →
      Lookup smallEnv fuel (loadedDirectory tombstoneBlock 0) [3] 1
        = Run.done ⟨status_t.B_OK, some 0xffff001000000007⟩ := by
  refine ⟨by decide, by decide, by decide, by decide, ?_⟩
  intro fuel hfuel
  obtain ⟨k, rfl⟩ : ∃ k, fuel = k + 4 := ⟨fuel - 4, by omega⟩
  exact Lookup_tombstone_run k

/-- C11: for an inode of extent format, the allocations succeeding, the
dispatcher returns the block engine iff its type-check and its `Init` both
succeed; otherwise the leaf engine iff its type-check and `Init` both succeed;
otherwise the node engine iff its type-check and `Init` both succeed;
otherwise nothing.  `Init` of an engine is called only if its type-check is
true, and no call is made on an engine once an earlier one has succeeded. -/
theorem DirectoryIterator_Init_extents (c : Collaborators) (inode : Inode)
    (hformat : inode.Format = XFS_DINODE_FMT_EXTENTS)
    (hblock : c.allocBlock = true) (hleaf : c.allocLeaf = true) (hnode : c.allocNode = true) :
    (DirectoryIterator.Init c inode).1
      = (if c.IsBlockType = true ∧ c.blockInit = status_t.B_OK then some Engine.BlockDirectory
         else if c.IsLeafType = true ∧ c.leafInit = status_t.B_OK then some Engine.LeafDirectory
         else if c.IsNodeType = true ∧ c.nodeInit = status_t.B_OK then some Engine.NodeDirectory
         else none) ∧
    (DispatchCall.BlockInit ∈ (DirectoryIterator.Init c inode).2 → c.IsBlockType = true) ∧
    (DispatchCall.LeafInit ∈ (DirectoryIterator.Init c inode).2 → c.IsLeafType = true) ∧
    (DispatchCall.NodeInit ∈ (DirectoryIterator.Init c inode).2 → c.IsNodeType = true) ∧
    (c.IsBlockType = true ∧ c.blockInit = status_t.B_OK →
      ∀ call ∈ (DirectoryIterator.Init c inode).2,
        call = DispatchCall.newBlockDirectory ∨ call = DispatchCall.IsBlockType ∨
        call = DispatchCall.BlockInit) ∧
    (c.IsLeafType = true ∧ c.leafInit = status_t.B_OK →
      ∀ call ∈ (DirectoryIterator.Init c inode).2,
        call ≠ DispatchCall.newNodeDirectory ∧ call ≠ DispatchCall.IsNodeType ∧
        call ≠ DispatchCall.NodeInit) := by
  have h12 : ¬ (XFS_DINODE_FMT_EXTENTS = XFS_DINODE_FMT_LOCAL) := by decide
  have h23 : ¬ (XFS_DINODE_FMT_EXTENTS = XFS_DINODE_FMT_BTREE) := by decide
  unfold DirectoryIterator.Init DirectoryIterator.InitExtents
  simp only [hformat, h12, h23, if_false, if_true, hblock, hleaf, hnode, Bool.true_eq_false]
  by_cases hB : c.IsBlockType = true ∧ c.blockInit = status_t.B_OK
  · simp [hB]
  · by_cases hL : c.IsLeafType = true ∧ c.leafInit = status_t.B_OK
    · simp only [hB, hL, if_false, if_true]
      cases hb : c.IsBlockType <;> simp [hb, hL]
    · by_cases hN : c.IsNodeType = true ∧ c.nodeInit = status_t.B_OK
      · simp only [hB, hL, hN, if_false, if_true]
        cases hb : c.IsBlockType <;> cases hl : c.IsLeafType <;> simp [hb, hl, hN]
      · simp only [hB, hL, hN, if_false, if_true]
        cases hb : c.IsBlockType <;> cases hl : c.IsLeafType <;> cases hn : c.IsNodeType <;>
          simp [hb, hl, hn]

/-- C11 (witness): the block engine fails its type-check (its `Init` would
succeed), the leaf engine passes both: the leaf engine is returned. -/
theorem DirectoryIterator_Init_extents_witness :
    (DirectoryIterator.Init (collaborators false status_t.B_OK true status_t.B_OK true
      status_t.B_OK status_t.B_OK) (inodeOfFormat XFS_DINODE_FMT_EXTENTS)).1
      = some Engine.LeafDirectory :=
  (DirectoryIterator_Init_extents (collaborators false status_t.B_OK true status_t.B_OK true
    status_t.B_OK status_t.B_OK) (inodeOfFormat XFS_DINODE_FMT_EXTENTS) rfl rfl rfl rfl).1.trans
    (by decide)

/-- C12: the allocations succeeding, the dispatcher returns no engine if and
only if the format of the inode is none of inline, extent and B+Tree, or it is
extent and each of the three engines fails its type-check or its `Init`, or it
is B+Tree and the initialization check of the tree engine fails; for the
inline format it returns the inline engine. -/
theorem DirectoryIterator_Init_null (c : Collaborators) (inode : Inode)
    (hshort : c.allocShort = true) (hblock : c.allocBlock = true) (hleaf : c.allocLeaf = true)
    (hnode : c.allocNode = true) (htree : c.allocTree = true) :
    ((DirectoryIterator.Init c inode).1 = none ↔
      (inode.Format ≠ XFS_DINODE_FMT_LOCAL ∧ inode.Format ≠ XFS_DINODE_FMT_EXTENTS ∧
        inode.Format ≠ XFS_DINODE_FMT_BTREE) ∨
      (inode.Format = XFS_DINODE_FMT_EXTENTS ∧
        ¬ (c.IsBlockType = true ∧ c.blockInit = status_t.B_OK) ∧
        ¬ (c.IsLeafType = true ∧ c.leafInit = status_t.B_OK) ∧
        ¬ (c.IsNodeType = true ∧ c.nodeInit = status_t.B_OK)) ∨
      (inode.Format = XFS_DINODE_FMT_BTREE ∧ c.treeInitCheck ≠ status_t.B_OK)) ∧
    (inode.Format = XFS_DINODE_FMT_LOCAL →
      (DirectoryIterator.Init c inode).1 = some Engine.ShortDirectory) := by
  have h12 : ¬ (XFS_DINODE_FMT_EXTENTS = XFS_DINODE_FMT_LOCAL) := by decide
  have h23 : ¬ (XFS_DINODE_FMT_EXTENTS = XFS_DINODE_FMT_BTREE) := by decide
  have h13 : ¬ (XFS_DINODE_FMT_BTREE = XFS_DINODE_FMT_LOCAL) := by decide
  have h32 : ¬ (XFS_DINODE_FMT_BTREE = XFS_DINODE_FMT_EXTENTS) := by decide
  have h21 : ¬ (XFS_DINODE_FMT_LOCAL = XFS_DINODE_FMT_EXTENTS) := by decide
  have h31 : ¬ (XFS_DINODE_FMT_LOCAL = XFS_DINODE_FMT_BTREE) := by decide
  unfold DirectoryIterator.Init DirectoryIterator.InitExtents
  by_cases hl : inode.Format = XFS_DINODE_FMT_LOCAL
  · simp [hl, hshort, h21, h31]
  · by_cases he : inode.Format = XFS_DINODE_FMT_EXTENTS
    · simp only [he, h12, h23, if_false, if_true, hblock, hleaf, hnode, Bool.true_eq_false]
      by_cases hB : c.IsBlockType = true ∧ c.blockInit = status_t.B_OK
      · simp [hB]
      · by_cases hL : c.IsLeafType = true ∧ c.leafInit = status_t.B_OK
        · simp [hB, hL]
        · by_cases hN : c.IsNodeType = true ∧ c.nodeInit = status_t.B_OK
          · simp [hB, hL, hN]
          · simp [hB, hL, hN]
    · by_cases hb : inode.Format = XFS_DINODE_FMT_BTREE
      · by_cases ht : c.treeInitCheck = status_t.B_OK
        · simp [hb, h13, h32, htree, ht]
        · simp [hb, h13, h32, htree, ht]
      · simp [hl, he, hb]

/-- C12 (witness): an inode of extent format on which every engine fails its
type-check. -/
theorem DirectoryIterator_Init_null_witness :
    (DirectoryIterator.Init (collaborators false status_t.B_OK false status_t.B_OK false
      status_t.B_OK status_t.B_OK) (inodeOfFormat XFS_DINODE_FMT_EXTENTS)).1 = none :=
  (DirectoryIterator_Init_null (collaborators false status_t.B_OK false status_t.B_OK false
    status_t.B_OK status_t.B_OK) (inodeOfFormat XFS_DINODE_FMT_EXTENTS) rfl rfl rfl rfl rfl).1.mpr
    (Or.inr (Or.inl (by decide)))

/-- C13 (amended): on a well-formed block, at a cursor behind which a live
entry `e` comes next, `GetNext` returns `e` with `B_OK` and moves the cursor
to its offset when the name of `e` is shorter than the capacity, and returns
`B_BUFFER_OVERFLOW` with the cursor unchanged when the name is as long as the
capacity or longer. -/
theorem GetNext_capacity (env : Env) (inode : Inode) (buf : List Nat)
    (slots : List Slot) (hwf : WellFormedBlock env inode buf slots) (dir : BlockDirectory)
    (hinode : dir.fInode = inode) (hbuf : dir.fBlockBuffer = some buf) (e : LiveEntry)
    (hnext : (liveEntries env inode slots).find? (fun x => decide (dir.fOffset < x.offset))
      = some e)
    (length fuel : Nat) (hfuel : slots.length < fuel) :
    (e.name.length < length →
      GetNext env fuel dir length
        = Run.done ⟨status_t.B_OK, e.offset, some (e.name, e.inumber)⟩) ∧
    (length ≤ e.name.length →
      GetNext env fuel dir length
        = Run.done ⟨status_t.B_BUFFER_OVERFLOW, dir.fOffset, none⟩) := by
  have h := GetNext_spec env inode buf slots hwf dir hinode hbuf length fuel hfuel
  constructor
  · intro hlt
    have hn : ¬ e.name.length ≥ length := by omega
    rw [h]
    simp only [expectedNext, hnext, hn, if_false]
  · intro hle
    have hn : e.name.length ≥ length := hle
    rw [h]
    simp only [expectedNext, hnext, hn, if_true]

set_option maxRecDepth 100000 in
/-- C13 (witness): the block of the scenario after `Rewind`; the entry `"a"` is
returned with capacity 2. -/
theorem GetNext_capacity_witness :
    GetNext smallEnv 5 (loadedDirectory scenarioBlock 0) 2
      = Run.done ⟨status_t.B_OK, 16, some ([0x61], 10)⟩ :=
  (GetNext_capacity smallEnv smallInode scenarioBlock scenarioSlots (by decide)
    (loadedDirectory scenarioBlock 0) rfl rfl { offset := 16, name := [0x61], inumber := 10 }
    (by decide) 2 5 (by decide)).1 (by decide)

set_option maxRecDepth 100000 in
/-- C13 (counterexample): in the block of the scenario after `Rewind`, the next
live entry is `"a"`, whose name has length 1; with capacity 1 the name is not
longer than the capacity, and `GetNext` returns `B_BUFFER_OVERFLOW`. -/
theorem GetNext_capacity_equal_counterexample :
    WellFormedBlock smallEnv smallInode scenarioBlock scenarioSlots ∧
    (liveEntries smallEnv smallInode scenarioSlots).find?
        (fun x => decide ((loadedDirectory scenarioBlock 0).fOffset < x.offset))
      = some { offset := 16, name := [0x61], inumber := 10 } ∧
    [0x61].length ≤ 1 ∧
    GetNext smallEnv 5 (loadedDirectory scenarioBlock 0) 1
      = Run.done ⟨status_t.B_BUFFER_OVERFLOW, 0, none⟩ := by
  decide

/-- C14: for a directory block size that is a power of two of at most `2^32`,
`GetOffsetFromAddress` gives the exact product `address * 8` reduced modulo
the block size: a multiple of 8 below the block size, and `address * 8` itself
when that is below the block size. -/
theorem GetOffsetFromAddress_mod (inode : Inode) (k : Nat) (hk : k ≤ 32)
    (hpow : inode.DirBlockSize = 2 ^ k) (address : Nat) :
    GetOffsetFromAddress inode address = (address * 8) % inode.DirBlockSize ∧
    GetOffsetFromAddress inode address % 8 = 0 ∧
    GetOffsetFromAddress inode address < inode.DirBlockSize ∧
    (address * 8 < inode.DirBlockSize → GetOffsetFromAddress inode address = address * 8) := by
  have hdvd : 2 ^ k ∣ 2 ^ 32 := Nat.pow_dvd_pow 2 hk
  have hpos : 0 < 2 ^ k := Nat.two_pow_pos k
  have heq : GetOffsetFromAddress inode address = (address * 8) % 2 ^ k := by
    unfold GetOffsetFromAddress
    simp only [hpow]
    rw [Nat.and_pow_two_sub_one_eq_mod, Nat.mod_mod_of_dvd _ hdvd]
  rw [heq, hpow]
  refine ⟨rfl, ?_, Nat.mod_lt _ hpos, fun h => Nat.mod_eq_of_lt h⟩
  by_cases h3 : 3 ≤ k
  · have h8 : 8 ∣ 2 ^ k := by
      have : (2 : Nat) ^ 3 ∣ 2 ^ k := Nat.pow_dvd_pow 2 h3
      simpa using this
    rw [Nat.mod_mod_of_dvd _ h8]
    omega
  · have hk3 : k = 0 ∨ k = 1 ∨ k = 2 := by omega
    rcases hk3 with h | h | h <;> subst h <;> simp <;> omega

/-- C14 (witness): the leaf address `2^31 + 6` in a block of 512 bytes: the
product `2^34 + 48` does not fit in 32 bits, and the offset is 48. -/
theorem GetOffsetFromAddress_mod_witness :
    GetOffsetFromAddress smallInode (2 ^ 31 + 6) = ((2 ^ 31 + 6) * 8) % smallInode.DirBlockSize ∧
    GetOffsetFromAddress smallInode (2 ^ 31 + 6) = 48 :=
  ⟨(GetOffsetFromAddress_mod smallInode 9 (by decide) (by decide) (2 ^ 31 + 6)).1, by decide⟩

theorem be64Bytes_bytes (b0 b1 b2 b3 b4 b5 b6 b7 : Nat) (h0 : b0 < 256) (h1 : b1 < 256)
    (h2 : b2 < 256) (h3 : b3 < 256) (h4 : b4 < 256) (h5 : b5 < 256) (h6 : b6 < 256)
    (h7 : b7 < 256) :
    be64Bytes (b0 * 2 ^ 56 + b1 * 2 ^ 48 + b2 * 2 ^ 40 + b3 * 2 ^ 32 + b4 * 2 ^ 24 + b5 * 2 ^ 16
      + b6 * 2 ^ 8 + b7) = [b0, b1, b2, b3, b4, b5, b6, b7] := by
  unfold be64Bytes
  have e0 : (b0 * 2 ^ 56 + b1 * 2 ^ 48 + b2 * 2 ^ 40 + b3 * 2 ^ 32 + b4 * 2 ^ 24 + b5 * 2 ^ 16
      + b6 * 2 ^ 8 + b7) / 2 ^ 56 % 256 = b0 := by omega
  have e1 : (b0 * 2 ^ 56 + b1 * 2 ^ 48 + b2 * 2 ^ 40 + b3 * 2 ^ 32 + b4 * 2 ^ 24 + b5 * 2 ^ 16
      + b6 * 2 ^ 8 + b7) / 2 ^ 48 % 256 = b1 := by omega
  have e2 : (b0 * 2 ^ 56 + b1 * 2 ^ 48 + b2 * 2 ^ 40 + b3 * 2 ^ 32 + b4 * 2 ^ 24 + b5 * 2 ^ 16
      + b6 * 2 ^ 8 + b7) / 2 ^ 40 % 256 = b2 := by omega
  have e3 : (b0 * 2 ^ 56 + b1 * 2 ^ 48 + b2 * 2 ^ 40 + b3 * 2 ^ 32 + b4 * 2 ^ 24 + b5 * 2 ^ 16
      + b6 * 2 ^ 8 + b7) / 2 ^ 32 % 256 = b3 := by omega
  have e4 : (b0 * 2 ^ 56 + b1 * 2 ^ 48 + b2 * 2 ^ 40 + b3 * 2 ^ 32 + b4 * 2 ^ 24 + b5 * 2 ^ 16
      + b6 * 2 ^ 8 + b7) / 2 ^ 24 % 256 = b4 := by omega
  have e5 : (b0 * 2 ^ 56 + b1 * 2 ^ 48 + b2 * 2 ^ 40 + b3 * 2 ^ 32 + b4 * 2 ^ 24 + b5 * 2 ^ 16
      + b6 * 2 ^ 8 + b7) / 2 ^ 16 % 256 = b5 := by omega
  have e6 : (b0 * 2 ^ 56 + b1 * 2 ^ 48 + b2 * 2 ^ 40 + b3 * 2 ^ 32 + b4 * 2 ^ 24 + b5 * 2 ^ 16
      + b6 * 2 ^ 8 + b7) / 2 ^ 8 % 256 = b6 := by omega
  have e7 : (b0 * 2 ^ 56 + b1 * 2 ^ 48 + b2 * 2 ^ 40 + b3 * 2 ^ 32 + b4 * 2 ^ 24 + b5 * 2 ^ 16
      + b6 * 2 ^ 8 + b7) % 256 = b7 := by omega
  rw [e0, e1, e2, e3, e4, e5, e6, e7]

/-- The decoded fields in terms of the two big-endian words of the record. -/
theorem FillMapEntry_words (le : Bool) (record : List Nat)
    (hbytes : ∀ i, i < 16 → byteAt record i < 256) :
    FillMapEntry le record
      = { br_state := loadU64 false record / 2 ^ 63
          br_startoff := loadU64 false record % 2 ^ 63 / 2 ^ 9
          br_startblock := loadU64 false record % 2 ^ 9 * 2 ^ 43
            + loadU64 false (record.drop 8) / 2 ^ 21
          br_blockcount := loadU64 false (record.drop 8) % 2 ^ 21 } := by
  have h1 : ∀ i, i < 8 → byteAt record i < 256 := fun i hi => hbytes i (by omega)
  have h2 : ∀ i, i < 8 → byteAt (record.drop 8) i < 256 := by
    intro i hi
    have := hbytes (8 + i) (by omega)
    simpa [byteAt, List.getD_eq_getElem?_getD, List.getElem?_drop] using this
  have hw1 : loadU64 false record < 2 ^ 64 := by
    have a0 := h1 0 (by omega)
    have a1 := h1 1 (by omega)
    have a2 := h1 2 (by omega)
    have a3 := h1 3 (by omega)
    have a4 := h1 4 (by omega)
    have a5 := h1 5 (by omega)
    have a6 := h1 6 (by omega)
    have a7 := h1 7 (by omega)
    simp only [loadU64, Bool.false_eq_true, if_false]
    omega
  have hw2 : loadU64 false (record.drop 8) < 2 ^ 64 := by
    have a0 := h2 0 (by omega)
    have a1 := h2 1 (by omega)
    have a2 := h2 2 (by omega)
    have a3 := h2 3 (by omega)
    have a4 := h2 4 (by omega)
    have a5 := h2 5 (by omega)
    have a6 := h2 6 (by omega)
    have a7 := h2 7 (by omega)
    simp only [loadU64, Bool.false_eq_true, if_false]
    omega
  unfold FillMapEntry
  simp only [bendian_load_eq le _ h1, bendian_load_eq le _ h2, and_MASK,
    Nat.shiftRight_eq_div_pow, Nat.shiftLeft_eq]
  have hlow : (loadU64 false record % 2 ^ 9 * 2 ^ 43) % 2 ^ 64
      = loadU64 false record % 2 ^ 9 * 2 ^ 43 := by omega
  have hhigh : loadU64 false (record.drop 8) / 2 ^ 21 < 2 ^ 43 := by omega
  rw [hlow, mul_or_eq_add _ _ _ hhigh]
  congr 1
  omega

/-- C20: for every 16-byte record and on either host, the fields `FillMapEntry`
decodes satisfy `state < 2`, `startoff < 2^54`, `startblock < 2^52` and
`blockcount < 2^21`; packing them again gives back the record, and another
16-byte record that decodes to the same four fields is the same record. -/
theorem FillMapEntry_loses_no_bit (le : Bool) (record : List Nat) (hlen : record.length = 16)
    (hbytes : ∀ b ∈ record, b < 256) :
    (FillMapEntry le record).br_state < 2 ∧
    (FillMapEntry le record).br_startoff < 2 ^ 54 ∧
    (FillMapEntry le record).br_startblock < 2 ^ 52 ∧
    (FillMapEntry le record).br_blockcount < 2 ^ 21 ∧
    encodeExtent (FillMapEntry le record).br_state (FillMapEntry le record).br_startoff
      (FillMapEntry le record).br_startblock (FillMapEntry le record).br_blockcount = record ∧
    ∀ other : List Nat, other.length = 16 → (∀ b ∈ other, b < 256) →
      FillMapEntry le other = FillMapEntry le record → other = record := by
  have hrepack : ∀ r : List Nat, r.length = 16 → (∀ b ∈ r, b < 256) →
      encodeExtent (FillMapEntry le r).br_state (FillMapEntry le r).br_startoff
        (FillMapEntry le r).br_startblock (FillMapEntry le r).br_blockcount = r := by
    intro r hr hb
    rcases r with _ | ⟨b0, _ | ⟨b1, _ | ⟨b2, _ | ⟨b3, _ | ⟨b4, _ | ⟨b5, _ | ⟨b6, _ | ⟨b7, _ | ⟨b8, _ | ⟨b9, _ | ⟨b10, _ | ⟨b11, _ | ⟨b12, _ | ⟨b13, _ | ⟨b14, _ | ⟨b15, _ | ⟨_, _⟩⟩⟩⟩⟩⟩⟩⟩⟩⟩⟩⟩⟩⟩⟩⟩⟩
    all_goals try (simp at hr; done)
    have c0 := hb b0 (by simp)
    have c1 := hb b1 (by simp)
    have c2 := hb b2 (by simp)
    have c3 := hb b3 (by simp)
    have c4 := hb b4 (by simp)
    have c5 := hb b5 (by simp)
    have c6 := hb b6 (by simp)
    have c7 := hb b7 (by simp)
    have c8 := hb b8 (by simp)
    have c9 := hb b9 (by simp)
    have c10 := hb b10 (by simp)
    have c11 := hb b11 (by simp)
    have c12 := hb b12 (by simp)
    have c13 := hb b13 (by simp)
    have c14 := hb b14 (by simp)
    have c15 := hb b15 (by simp)
    have hat : ∀ i, i < 16 → byteAt [b0, b1, b2, b3, b4, b5, b6, b7, b8, b9, b10, b11, b12, b13,
        b14, b15] i < 256 := by
      intro i hi
      have hcases : i = 0 ∨ i = 1 ∨ i = 2 ∨ i = 3 ∨ i = 4 ∨ i = 5 ∨ i = 6 ∨ i = 7 ∨ i = 8 ∨
          i = 9 ∨ i = 10 ∨ i = 11 ∨ i = 12 ∨ i = 13 ∨ i = 14 ∨ i = 15 := by omega
      rcases hcases with h | h | h | h | h | h | h | h | h | h | h | h | h | h | h | h <;>
        subst h <;> simpa [byteAt] using (by assumption)
    rw [FillMapEntry_words le _ hat]
    simp only [loadU64, Bool.false_eq_true, if_false, byteAt, List.drop_succ_cons, List.drop_zero,
      List.getD_cons_zero, List.getD_cons_succ, encodeExtent]
    have hw1 : ((b0 * 2 ^ 56 + b1 * 2 ^ 48 + b2 * 2 ^ 40 + b3 * 2 ^ 32 + b4 * 2 ^ 24 + b5 * 2 ^ 16
          + b6 * 2 ^ 8 + b7) / 2 ^ 63 * 2 ^ 63
        + (b0 * 2 ^ 56 + b1 * 2 ^ 48 + b2 * 2 ^ 40 + b3 * 2 ^ 32 + b4 * 2 ^ 24 + b5 * 2 ^ 16
          + b6 * 2 ^ 8 + b7) % 2 ^ 63 / 2 ^ 9 * 2 ^ 9
        + ((b0 * 2 ^ 56 + b1 * 2 ^ 48 + b2 * 2 ^ 40 + b3 * 2 ^ 32 + b4 * 2 ^ 24 + b5 * 2 ^ 16
          + b6 * 2 ^ 8 + b7) % 2 ^ 9 * 2 ^ 43
          + (b8 * 2 ^ 56 + b9 * 2 ^ 48 + b10 * 2 ^ 40 + b11 * 2 ^ 32 + b12 * 2 ^ 24 + b13 * 2 ^ 16
          + b14 * 2 ^ 8 + b15) / 2 ^ 21) / 2 ^ 43) % 2 ^ 64
        = b0 * 2 ^ 56 + b1 * 2 ^ 48 + b2 * 2 ^ 40 + b3 * 2 ^ 32 + b4 * 2 ^ 24 + b5 * 2 ^ 16
          + b6 * 2 ^ 8 + b7 := by omega
    have hw2 : (((b0 * 2 ^ 56 + b1 * 2 ^ 48 + b2 * 2 ^ 40 + b3 * 2 ^ 32 + b4 * 2 ^ 24 + b5 * 2 ^ 16
          + b6 * 2 ^ 8 + b7) % 2 ^ 9 * 2 ^ 43
          + (b8 * 2 ^ 56 + b9 * 2 ^ 48 + b10 * 2 ^ 40 + b11 * 2 ^ 32 + b12 * 2 ^ 24 + b13 * 2 ^ 16
          + b14 * 2 ^ 8 + b15) / 2 ^ 21) % 2 ^ 43 * 2 ^ 21
        + (b8 * 2 ^ 56 + b9 * 2 ^ 48 + b10 * 2 ^ 40 + b11 * 2 ^ 32 + b12 * 2 ^ 24 + b13 * 2 ^ 16
          + b14 * 2 ^ 8 + b15) % 2 ^ 21) % 2 ^ 64
        = b8 * 2 ^ 56 + b9 * 2 ^ 48 + b10 * 2 ^ 40 + b11 * 2 ^ 32 + b12 * 2 ^ 24 + b13 * 2 ^ 16
          + b14 * 2 ^ 8 + b15 := by omega
    rw [hw1, hw2, be64Bytes_bytes b0 b1 b2 b3 b4 b5 b6 b7 c0 c1 c2 c3 c4 c5 c6 c7,
      be64Bytes_bytes b8 b9 b10 b11 b12 b13 b14 b15 c8 c9 c10 c11 c12 c13 c14 c15]
    rfl
  have hat : ∀ i, i < 16 → byteAt record i < 256 := by
    intro i hi
    unfold byteAt
    rw [List.getD_eq_getElem _ _ (by omega)]
    exact hbytes _ (List.getElem_mem _)
  refine ⟨?_, ?_, ?_, ?_, hrepack record hlen hbytes, ?_⟩
  · rw [FillMapEntry_words le _ hat]
    have h1 : ∀ i, i < 8 → byteAt record i < 256 := fun i hi => hat i (by omega)
    have a0 := h1 0 (by omega)
    have a1 := h1 1 (by omega)
    have a2 := h1 2 (by omega)
    have a3 := h1 3 (by omega)
    have a4 := h1 4 (by omega)
    have a5 := h1 5 (by omega)
    have a6 := h1 6 (by omega)
    have a7 := h1 7 (by omega)
    simp only [loadU64, Bool.false_eq_true, if_false]
    omega
  · rw [FillMapEntry_words le _ hat]
    simp only
    omega
  · rw [FillMapEntry_words le _ hat]
    simp only
    have h2 : ∀ i, i < 8 → byteAt (record.drop 8) i < 256 := by
      intro i hi
      have := hat (8 + i) (by omega)
      simpa [byteAt, List.getD_eq_getElem?_getD, List.getElem?_drop] using this
    have a0 := h2 0 (by omega)
    have a1 := h2 1 (by omega)
    have a2 := h2 2 (by omega)
    have a3 := h2 3 (by omega)
    have a4 := h2 4 (by omega)
    have a5 := h2 5 (by omega)
    have a6 := h2 6 (by omega)
    have a7 := h2 7 (by omega)
    simp only [loadU64, Bool.false_eq_true, if_false]
    omega
  · rw [FillMapEntry_words le _ hat]
    simp only
    omega
  · intro other hlen2 hbytes2 heq
    rw [← hrepack other hlen2 hbytes2, heq, hrepack record hlen hbytes]

/-- C20 (witness): the record whose bytes are 1, 2, ..., 16, on a little-endian
host. -/
theorem FillMapEntry_loses_no_bit_witness :
    [1, 2, 3, 4, 5, 6, 7, 8, 9, 10, 11, 12, 13, 14, 15, 16].length = 16 ∧
    encodeExtent
      (FillMapEntry true [1, 2, 3, 4, 5, 6, 7, 8, 9, 10, 11, 12, 13, 14, 15, 16]).br_state
      (FillMapEntry true [1, 2, 3, 4, 5, 6, 7, 8, 9, 10, 11, 12, 13, 14, 15, 16]).br_startoff
      (FillMapEntry true [1, 2, 3, 4, 5, 6, 7, 8, 9, 10, 11, 12, 13, 14, 15, 16]).br_startblock
      (FillMapEntry true [1, 2, 3, 4, 5, 6, 7, 8, 9, 10, 11, 12, 13, 14, 15, 16]).br_blockcount
      = [1, 2, 3, 4, 5, 6, 7, 8, 9, 10, 11, 12, 13, 14, 15, 16] :=
  ⟨rfl, (FillMapEntry_loses_no_bit true [1, 2, 3, 4, 5, 6, 7, 8, 9, 10, 11, 12, 13, 14, 15, 16]
    rfl (by decide)).2.2.2.2.1⟩

/-- C17 (the code at the failing inputs): on a little-endian host, for the
record of start offset 1 the value `IsBlockType` computes is `2^40` while
`FillMapEntry` decodes 1; and for the inode of one block and one directory
block in size whose record has start offset 0 and start block `2^51`,
`FillMapEntry` decodes start offset 0 while `IsBlockType` computes `2^39` and
answers false. -/
theorem IsBlockType_startoff_not_converted :
    (FillMapEntry true (encodeExtent 0 1 0 1)).br_startoff = 1 ∧
    (loadU64 true (encodeExtent 0 1 0 1) &&& MASK 63) >>> 9 = 2 ^ 40 ∧
    (FillMapEntry true (DIR_DFORK_PTR (inodeWithRecord (encodeExtent 0 0 (2 ^ 51) 1)).Buffer
      (inodeWithRecord (encodeExtent 0 0 (2 ^ 51) 1)).CoreInodeSize)).br_startoff = 0 ∧
    (loadU64 true (DIR_DFORK_PTR (inodeWithRecord (encodeExtent 0 0 (2 ^ 51) 1)).Buffer
      (inodeWithRecord (encodeExtent 0 0 (2 ^ 51) 1)).CoreInodeSize) &&& MASK 63) >>> 9
      = 2 ^ 39 ∧
    (inodeWithRecord (encodeExtent 0 0 (2 ^ 51) 1)).BlockCount = 1 ∧
    (inodeWithRecord (encodeExtent 0 0 (2 ^ 51) 1)).Size
      = (inodeWithRecord (encodeExtent 0 0 (2 ^ 51) 1)).DirBlockSize ∧
    IsBlockType true (inodeWithRecord (encodeExtent 0 0 (2 ^ 51) 1)) = false := by
  decide

/-- On a big-endian host the value `IsBlockType` computes is the start offset
`FillMapEntry` decodes. -/
theorem IsBlockType_startoff_big_endian (record : List Nat) :
    (loadU64 false record &&& MASK 63) >>> 9 = (FillMapEntry false record).br_startoff := by
  simp [FillMapEntry, B_BENDIAN_TO_HOST_INT64]

set_option maxRecDepth 100000 in
theorem GetNextLoop_zero_length (fOffset length : Nat) :
    ∀ fuel : Nat,
      GetNextLoop smallInode zeroLengthBlock fOffset length 1 fuel 0 16 16 = Run.outOfFuel := by
  have htag : readBE16 zeroLengthBlock 16 = some DIR2_FREE_TAG := by decide
  have hlen : readBE16 zeroLengthBlock (16 + 2) = some 0 := by decide
  intro fuel
  induction fuel with
  | zero => rfl
  | succ fuel ih =>
    have hi : (0 : Int) < 1 := by decide
    have hstep : (0 : Int) - 1 + 1 = 0 := by decide
    simp only [GetNextLoop, hi, if_true, htag, hlen, hstep, Nat.add_zero]
    exact ih

set_option maxRecDepth 100000 in
/-- C19 (the code at the failing input): on the block whose first record is
free-tagged with length 0, `GetNext` does not return within any number of loop
iterations, whatever the cursor and the capacity; every iteration reads the
same record inside the buffer. -/
theorem GetNext_zero_length_never_returns (fuel fOffset length : Nat) :
    GetNext smallEnv fuel (loadedDirectory zeroLengthBlock fOffset) length = Run.outOfFuel := by
  have hcount : readBE32At zeroLengthBlock (GetBlockTail smallInode) = some 1 := by decide
  have hstale : readBE32At zeroLengthBlock (GetBlockTail smallInode + 4) = some 0 := by decide
  have hnum : wrapInt32 (toInt32 1 - toInt32 0) = 1 := by decide
  have hsize : DataHeader.Size smallEnv smallInode = 16 := by decide
  simp only [GetNext, loadedDirectory, hcount, hstale, hnum, hsize]
  exact GetNextLoop_zero_length fOffset length fuel

/-- The traced loop returns what the loop of `Lookup` returns. -/
theorem LookupLoopTraced_fst (inode : Inode) (buf : List Nat) (name : List Nat) (length : Nat)
    (target : Nat) (leafEntry : Int) :
    ∀ (fuel : Nat) (left : Int),
      (LookupLoopTraced inode buf name length target leafEntry fuel left).1
        = LookupLoop inode buf name length target leafEntry fuel left := by
  intro fuel
  induction fuel with
  | zero => intro left; rfl
  | succ fuel ih =>
    intro left
    simp only [LookupLoopTraced, LookupLoop]
    cases leafHashval buf leafEntry left with
    | none => rfl
    | some hashval =>
      simp only
      by_cases hh : hashval = target
      · simp only [hh, if_true]
        cases leafAddress buf leafEntry left with
        | none => rfl
        | some address =>
          simp only
          by_cases ha : address = 0
          · simp only [ha, if_true, ih]
          · simp only [ha, if_false]
            cases readU8 buf (GetOffsetFromAddress inode address + 8) with
            | none => rfl
            | some namelen =>
              simp only
              by_cases hb : length = namelen ∧
                  buf.length < GetOffsetFromAddress inode address + 9 + length
              · rw [if_pos hb, if_pos hb]
              · rw [if_neg hb, if_neg hb]
                cases xfs_da_name_comp name length
                    (buf.drop (GetOffsetFromAddress inode address + 9)) namelen with
                | false => simp only [Bool.false_eq_true, if_false, ih]
                | true =>
                  simp only [if_true]
                  cases readBE64 buf (GetOffsetFromAddress inode address) with
                  | none => rfl
                  | some inumber => rfl
      · simp only [hh, if_false]

/-- Taking the result of the traced `Lookup` gives `Lookup`. -/
theorem LookupTraced_fst (env : Env) (fuel : Nat) (dir : BlockDirectory) (name : List Nat)
    (length : Nat) : (LookupTraced env fuel dir name length).1 = Lookup env fuel dir name length := by
  unfold LookupTraced Lookup
  cases dir.fBlockBuffer with
  | none => rfl
  | some buf =>
    simp only
    cases readBE32At buf (GetBlockTail dir.fInode) with
    | none => rfl
    | some count =>
      simp only
      cases hashLowerBound buf (BlockFirstLeaf (GetBlockTail dir.fInode) count)
          (env.hashfunction name length % 2 ^ 32) fuel 0 (toInt32 count - 1) with
      | done bounds => exact LookupLoopTraced_fst _ _ _ _ _ _ _ _
      | outOfBounds => rfl
      | outOfFuel => rfl

set_option maxRecDepth 100000 in
/-- C18 (the code at the failing input): in the well-formed block of the
scenario (`count = 3`), `Lookup` of the absent name `[0x63, 0xe2]`, whose
hash value `0x3162` is that of the last leaf entry, reads `leafEntry[2]` and
then `leafEntry[3]`, which is the tail: the index 3 is not below `count`, and
the loop ends only because `count` differs from the requested hash value. -/
theorem Lookup_reads_tail_as_leaf :
    WellFormedBlock smallEnv smallInode scenarioBlock scenarioSlots ∧
    WellFormedLeaves smallEnv smallInode scenarioBlock scenarioSlots scenarioLeaves ∧
    readBE32 scenarioBlock (smallInode.DirBlockSize - 8) = some 3 ∧
    smallEnv.hashfunction [0x63, 0xe2] 2 = 0x3162 ∧
    LookupTraced smallEnv 4 (loadedDirectory scenarioBlock 0) [0x63, 0xe2] 2
      = (Run.done ⟨status_t.B_ENTRY_NOT_FOUND, none⟩, [2, 3]) ∧
    Lookup smallEnv 4 (loadedDirectory scenarioBlock 0) [0x63, 0xe2] 2
      = (LookupTraced smallEnv 4 (loadedDirectory scenarioBlock 0) [0x63, 0xe2] 2).1 ∧
    leafHashval scenarioBlock (BlockFirstLeaf (GetBlockTail smallInode) 3) 3
      = readBE32 scenarioBlock (smallInode.DirBlockSize - 8) ∧
    (LookupTraced smallEnv 4 (loadedDirectory tombstoneBlock 0) [3] 1).2 = [2, 3] := by
  decide

/-- The binary search over a readable leaf array ends inside the range it is
given. -/
theorem hashLowerBound_done (buf : List Nat) (leafEntry : Int) (target : Nat)
    (hv : Nat → Nat) (n : Nat)
    (hread : ∀ i, i < n → leafHashval buf leafEntry (i : Int) = some (hv i)) :
    ∀ (fuel left right : Nat), left ≤ right → right < n → right - left < fuel →
      ∃ (lb : Nat) (rb : Int), hashLowerBound buf leafEntry target fuel (left : Int) (right : Int)
          = Run.done ((lb : Int), rb) ∧ lb ≤ right := by
  intro fuel
  induction fuel with
  | zero =>
    intro left right _ _ hfuel
    omega
  | succ fuel ih =>
    intro left right hle hright hfuel
    by_cases hlt : left < right
    · have hlt2 : (left : Int) < (right : Int) := by omega
      have hmid : (left + right) / 2 < n := by omega
      simp only [hashLowerBound, hlt2, if_true, tdiv_two_cast, hread _ hmid]
      by_cases hge : hv ((left + right) / 2) ≥ target
      · simp only [hge, if_true]
        obtain ⟨lb, rb, h1, h2⟩ := ih left ((left + right) / 2) (by omega) hmid (by omega)
        exact ⟨lb, rb, h1, by omega⟩
      · simp only [hge, if_false]
        have hcast : (((left + right) / 2 : Nat) : Int) + 1
            = (((left + right) / 2 + 1 : Nat) : Int) := by
          push_cast
          rfl
        rw [hcast]
        exact ih ((left + right) / 2 + 1) right (by omega) hright (by omega)
    · have hlt2 : ¬ ((left : Int) < (right : Int)) := by omega
      simp only [hashLowerBound, hlt2, if_false]
      exact ⟨left, (right : Int), rfl, hle⟩

/-- The scan of `Lookup` over a readable leaf array whose non-zero addresses
designate live entries, when the requested hash value differs from `count`:
it ends at the latest at the tail, inside the buffer, with the inode number of
a live entry of the requested name or with `B_ENTRY_NOT_FOUND`. -/
theorem LookupLoop_done (inode : Inode) (buf : List Nat) (target : Nat) (leafEntry : Int)
    (hv ad : Nat → Nat) (n : Nat)
    (hreadh : ∀ i, i < n → leafHashval buf leafEntry (i : Int) = some (hv i))
    (hreada : ∀ i, i < n → leafAddress buf leafEntry (i : Int) = some (ad i))
    (htail : leafHashval buf leafEntry (n : Int) = some n) (hne : target ≠ n)
    (lives : List LiveEntry)
    (hlives : ∀ x ∈ lives, SlotAt buf x.offset (Slot.live x.inumber x.name))
    (hpoint : ∀ j, j < n → ad j = 0 ∨
      ∃ x ∈ lives, GetOffsetFromAddress inode (ad j) = x.offset)
    (name : List Nat) :
    ∀ (fuel left : Nat), left ≤ n → n - left < fuel →
      ∃ r, LookupLoop inode buf name name.length target leafEntry fuel (left : Int) = Run.done r ∧
        (r = ⟨status_t.B_ENTRY_NOT_FOUND, none⟩ ∨
          ∃ x ∈ lives, x.name = name ∧ r = ⟨status_t.B_OK, some x.inumber⟩) := by
  intro fuel
  induction fuel with
  | zero =>
    intro left _ hfuel
    omega
  | succ fuel ih =>
    intro left hle hfuel
    have hcast : (left : Int) + 1 = ((left + 1 : Nat) : Int) := by push_cast; rfl
    rcases Nat.eq_or_lt_of_le hle with heq | hlt
    · subst heq
      have hne2 : ¬ (left = target) := fun h => hne h.symm
      simp only [LookupLoop, htail, hne2, if_false]
      exact ⟨_, rfl, Or.inl rfl⟩
    · simp only [LookupLoop, hreadh left hlt]
      by_cases hh : hv left = target
      · simp only [hh, if_true, hreada left hlt]
        by_cases hzero : ad left = 0
        · simp only [hzero, if_true, hcast]
          exact ih (left + 1) (by omega) (by omega)
        · simp only [hzero, if_false]
          rcases hpoint left hlt with h0 | ⟨x, hx, hxoff⟩
          · exact absurd h0 hzero
          · have hslot := hlives x hx
            obtain ⟨hnoob, hcomp⟩ := name_comp_at buf x.offset x.inumber x.name name hslot
            rw [hxoff, hslot.2.2.1]
            simp only [hnoob, if_false]
            cases hc : xfs_da_name_comp name name.length (buf.drop (x.offset + 9))
                x.name.length with
            | false =>
              simp only [Bool.false_eq_true, if_false, hcast]
              exact ih (left + 1) (by omega) (by omega)
            | true =>
              simp only [if_true, hslot.2.1]
              exact ⟨_, rfl, Or.inr ⟨x, hx, (hcomp.mp hc).symm, rfl⟩⟩
      · simp only [hh, if_false]
        exact ⟨_, rfl, Or.inl rfl⟩

/-- C16 (amended): on a well-formed block with a well-formed leaf array, every
read of `GetNext` lies inside the buffer, at any cursor and capacity, and so
does every read of `Lookup` of a name whose hash value differs from `count`:
with one loop iteration per record (per leaf entry) and two more, both return,
and `Lookup` returns the inode number of a live entry of that name or
`B_ENTRY_NOT_FOUND`. -/
theorem reads_inside_well_formed_block (env : Env) (inode : Inode) (buf : List Nat)
    (slots : List Slot) (leaves : List (Nat × Nat)) (hwf : WellFormedBlock env inode buf slots)
    (hleaves : WellFormedLeaves env inode buf slots leaves) (dir : BlockDirectory)
    (hinode : dir.fInode = inode) (hbuf : dir.fBlockBuffer = some buf) :
    (∀ length fuel : Nat, slots.length < fuel →
      ∃ r, GetNext env fuel dir length = Run.done r) ∧
    (∀ (name : List Nat) (fuel : Nat),
      env.hashfunction name name.length % 2 ^ 32 ≠ leaves.length → leaves.length + 1 < fuel →
      ∃ r, Lookup env fuel dir name name.length = Run.done r ∧
        (r = ⟨status_t.B_ENTRY_NOT_FOUND, none⟩ ∨
          ∃ x ∈ liveEntries env inode slots, x.name = name ∧
            r = ⟨status_t.B_OK, some x.inumber⟩)) := by
  constructor
  · intro length fuel hfuel
    exact ⟨_, GetNext_spec env inode buf slots hwf dir hinode hbuf length fuel hfuel⟩
  · intro name fuel hhash hfuel
    obtain ⟨_, ⟨k, hk, hpow⟩, _, hpos, hmul, count, hcount, stale, _, _, hcount31, hfits, _,
      hlaid⟩ := hwf
    obtain ⟨hn, hat, _, hpoint, _⟩ := hleaves
    simp only [Option.mem_def] at hcount
    have hcn : count = leaves.length := by
      rw [hcount] at hn
      exact Option.some.inj hn
    subst hcn
    have hslots := liveEntriesFrom_slotAt inode buf _ slots _ hlaid
    have hbase : BlockFirstLeaf (GetBlockTail inode) leaves.length
        = ((inode.DirBlockSize - 8 - 8 * leaves.length : Nat) : Int) := by
      unfold BlockFirstLeaf GetBlockTail
      omega
    have hreadh : ∀ i, i < leaves.length →
        leafHashval buf (BlockFirstLeaf (GetBlockTail inode) leaves.length) (i : Int)
          = some ((leaves[i]?).getD (0, 0)).1 := by
      intro i hi
      have hcast : ((inode.DirBlockSize - 8 - 8 * leaves.length : Nat) : Int) + 8 * (i : Int)
          = ((inode.DirBlockSize - 8 - 8 * leaves.length + 8 * i : Nat) : Int) := by
        push_cast
        rfl
      rw [hbase, leafHashval, hcast, readBE32At_cast]
      have hsome : leaves[i]? = some ((leaves[i]?).getD (0, 0)) := by
        rw [List.getElem?_eq_getElem hi]
        rfl
      exact (LeavesAt_read buf leaves _ i _ hat hsome).1
    have hreada : ∀ i, i < leaves.length →
        leafAddress buf (BlockFirstLeaf (GetBlockTail inode) leaves.length) (i : Int)
          = some ((leaves[i]?).getD (0, 0)).2 := by
      intro i hi
      have hcast : ((inode.DirBlockSize - 8 - 8 * leaves.length : Nat) : Int) + 8 * (i : Int) + 4
          = ((inode.DirBlockSize - 8 - 8 * leaves.length + 8 * i + 4 : Nat) : Int) := by
        push_cast
        rfl
      rw [hbase, leafAddress, hcast, readBE32At_cast]
      have hsome : leaves[i]? = some ((leaves[i]?).getD (0, 0)) := by
        rw [List.getElem?_eq_getElem hi]
        rfl
      exact (LeavesAt_read buf leaves _ i _ hat hsome).2
    have htailread : leafHashval buf (BlockFirstLeaf (GetBlockTail inode) leaves.length)
        (leaves.length : Int) = some leaves.length := by
      have hcast : ((inode.DirBlockSize - 8 - 8 * leaves.length : Nat) : Int)
          + 8 * (leaves.length : Int) = ((inode.DirBlockSize - 8 : Nat) : Int) := by
        omega
      rw [hbase, leafHashval, hcast, readBE32At_cast]
      exact hcount
    have hpoint2 : ∀ j, j < leaves.length → ((leaves[j]?).getD (0, 0)).2 = 0 ∨
        ∃ x ∈ liveEntries env inode slots,
          GetOffsetFromAddress inode ((leaves[j]?).getD (0, 0)).2 = x.offset := by
      intro j hj
      have hmem : (leaves[j]?).getD (0, 0) ∈ leaves := by
        rw [List.getElem?_eq_getElem hj]
        exact List.getElem_mem hj
      exact hpoint _ hmem
    have hscan := LookupLoop_done inode buf (env.hashfunction name name.length % 2 ^ 32)
      (BlockFirstLeaf (GetBlockTail inode) leaves.length)
      (fun i => ((leaves[i]?).getD (0, 0)).1) (fun i => ((leaves[i]?).getD (0, 0)).2)
      leaves.length hreadh hreada htailread hhash (liveEntries env inode slots)
      (fun x hx => (hslots x hx).1) hpoint2 name fuel
    have htail : readBE32At buf (GetBlockTail inode) = some leaves.length := by
      unfold readBE32At GetBlockTail
      have h1 : ¬ ((inode.DirBlockSize : Int) - 8 < 0) := by omega
      have h2 : ((inode.DirBlockSize : Int) - 8).toNat = inode.DirBlockSize - 8 := by omega
      simp only [h1, if_false, h2, hcount]
    have hc : leaves.length % 2 ^ 32 = leaves.length := Nat.mod_eq_of_lt (by omega)
    unfold Lookup
    simp only [hbuf, hinode, htail]
    rcases Nat.eq_zero_or_pos leaves.length with hzero | hposn
    · obtain ⟨f, rfl⟩ : ∃ f, fuel = f + 1 := ⟨fuel - 1, by omega⟩
      have hright : ¬ ((0 : Int) < toInt32 leaves.length - 1) := by
        unfold toInt32
        simp only [hc, hcount31, if_true]
        omega
      simp only [hashLowerBound, hright, if_false]
      have hzero2 : (0 : Int) = ((0 : Nat) : Int) := rfl
      rw [hzero2]
      exact hscan 0 (Nat.zero_le _) (by omega)
    · have hright : toInt32 leaves.length - 1 = ((leaves.length - 1 : Nat) : Int) := by
        unfold toInt32
        simp only [hc, hcount31, if_true]
        omega
      obtain ⟨lb, rb, hlb, hlble⟩ := hashLowerBound_done buf
        (BlockFirstLeaf (GetBlockTail inode) leaves.length)
        (env.hashfunction name name.length % 2 ^ 32)
        (fun i => ((leaves[i]?).getD (0, 0)).1) leaves.length hreadh fuel 0
        (leaves.length - 1) (Nat.zero_le _) (by omega) (by omega)
      have hzero2 : (0 : Int) = ((0 : Nat) : Int) := rfl
      rw [hright, hzero2, hlb]
      exact hscan lb (by omega) (by omega)

set_option maxRecDepth 100000 in
/-- C16 (witness): the block of the scenario; `GetNext` after the first entry
returns, and so does `Lookup` of `"z"`, whose hash value 122 is not `count`. -/
theorem reads_inside_well_formed_block_witness :
    (∃ r, GetNext smallEnv 5 (loadedDirectory scenarioBlock 16) 256 = Run.done r) ∧
    (∃ r, Lookup smallEnv 5 (loadedDirectory scenarioBlock 16) [0x7a] 1 = Run.done r ∧
      (r = ⟨status_t.B_ENTRY_NOT_FOUND, none⟩ ∨
        ∃ x ∈ liveEntries smallEnv smallInode scenarioSlots, x.name = [0x7a] ∧
          r = ⟨status_t.B_OK, some x.inumber⟩)) :=
  ⟨(reads_inside_well_formed_block smallEnv smallInode scenarioBlock scenarioSlots
      scenarioLeaves (by decide) (by decide) (loadedDirectory scenarioBlock 16) rfl rfl).1
      256 5 (by decide),
    (reads_inside_well_formed_block smallEnv smallInode scenarioBlock scenarioSlots
      scenarioLeaves (by decide) (by decide) (loadedDirectory scenarioBlock 16) rfl rfl).2
      [0x7a] 5 (by decide) (by decide)⟩

set_option maxRecDepth 100000 in
theorem corruptBlock_run (fuel : Nat) :
    GetNext smallEnv (fuel + 2) (loadedDirectory corruptBlock 0) 256 = Run.outOfBounds ∧
    Lookup smallEnv (fuel + 1) (loadedDirectory corruptBlock 0) [0x61] 1 = Run.outOfBounds := by
  exact ⟨rfl, rfl⟩

set_option maxRecDepth 100000 in
/-- C16 (counterexample): on the corrupt block (512 bytes, `count = 4096`,
first record free-tagged with length `0xfff8`), `GetNext` follows the length
to offset `16 + 0xfff8` and `Lookup` reads a leaf entry in front of the
buffer: with at least two loop iterations both end in an access outside the
buffer. -/
theorem corrupt_block_reads_outside_counterexample :
    corruptBlock.length = 512 ∧
    ∀ fuel, 2 ≤ fuel →
      GetNext smallEnv fuel (loadedDirectory corruptBlock 0) 256 = Run.outOfBounds ∧
      Lookup smallEnv fuel (loadedDirectory corruptBlock 0) [0x61] 1 = Run.outOfBounds := by
  refine ⟨by decide, ?_⟩
  intro fuel hfuel
  obtain ⟨k, rfl⟩ : ∃ k, fuel = k + 2 := ⟨fuel - 2, by omega⟩
  exact ⟨(corruptBlock_run k).1, (corruptBlock_run (k + 1)).2⟩

end XFS
